import Mathlib

set_option autoImplicit false

/-!
Shallow embedding of the sync_gateway excerpt: document metadata and channel
maps (db/document.go), the changes-feed loop (rest/changes_api.go), and the
components whose implementations are exercised by the excerpted tests
(revision cache, authenticator principals, sync-function expiry), modelled
from the specification where the implementation itself is not part of the
excerpt.  Go maps and JSON objects are modelled as association lists.
-/

/-- Association-list lookup, first matching key wins (Go maps have unique
keys, so models carry a `keysNodup` hypothesis where it matters). -/
def lookupKey {κ α : Type} [DecidableEq κ] : List (κ × α) → κ → Option α
  | [], _ => none
  | (k, v) :: rest, k₀ => if k = k₀ then some v else lookupKey rest k₀

/-- Remove the first binding of a key. -/
def eraseKey {κ α : Type} [DecidableEq κ] : List (κ × α) → κ → List (κ × α)
  | [], _ => []
  | (k, v) :: rest, k₀ => if k = k₀ then rest else (k, v) :: eraseKey rest k₀

/-- Replace the value stored at a key, in place (no-op on absent keys). -/
def setKey {κ α : Type} [DecidableEq κ] (l : List (κ × α)) (k₀ : κ) (v₀ : α) :
    List (κ × α) :=
  l.map fun p => if p.1 = k₀ then (k₀, v₀) else p

/-- The keys of an association list. -/
def keysOf {κ α : Type} (l : List (κ × α)) : List κ := l.map Prod.fst

/-- A Go map never has a duplicate key. -/
def keysNodup {κ α : Type} (l : List (κ × α)) : Prop := (keysOf l).Nodup

instance {κ α : Type} [DecidableEq κ] (l : List (κ × α)) :
    Decidable (keysNodup l) := by
  unfold keysNodup
  infer_instance

@[simp] theorem lookupKey_nil {κ α : Type} [DecidableEq κ] (k : κ) :
    lookupKey ([] : List (κ × α)) k = none := rfl

@[simp] theorem lookupKey_cons {κ α : Type} [DecidableEq κ] (k k₀ : κ) (v : α)
    (rest : List (κ × α)) :
    lookupKey ((k, v) :: rest) k₀ = if k = k₀ then some v else lookupKey rest k₀ := rfl

@[simp] theorem eraseKey_nil {κ α : Type} [DecidableEq κ] (k : κ) :
    eraseKey ([] : List (κ × α)) k = [] := rfl

@[simp] theorem eraseKey_cons {κ α : Type} [DecidableEq κ] (k k₀ : κ) (v : α)
    (rest : List (κ × α)) :
    eraseKey ((k, v) :: rest) k₀ =
      if k = k₀ then rest else (k, v) :: eraseKey rest k₀ := rfl

theorem lookupKey_append {κ α : Type} [DecidableEq κ] (l₁ l₂ : List (κ × α)) (k : κ) :
    lookupKey (l₁ ++ l₂) k =
      (lookupKey l₁ k).elim (lookupKey l₂ k) some := by
  induction l₁ with
  | nil => simp
  | cons p rest ih =>
      obtain ⟨k', v⟩ := p
      by_cases h : k' = k <;> simp [h, ih]

theorem lookupKey_eq_none {κ α : Type} [DecidableEq κ] (l : List (κ × α)) (k : κ)
    (h : k ∉ keysOf l) : lookupKey l k = none := by
  induction l with
  | nil => rfl
  | cons p rest ih =>
      obtain ⟨k', v⟩ := p
      simp only [keysOf, List.map_cons, List.mem_cons] at h
      push_neg at h
      simp [Ne.symm h.1, ih (by simpa [keysOf] using h.2)]

theorem lookupKey_isSome_of_mem_keys {κ α : Type} [DecidableEq κ]
    (l : List (κ × α)) (k : κ) (h : k ∈ keysOf l) : (lookupKey l k).isSome := by
  induction l with
  | nil => simp [keysOf] at h
  | cons p rest ih =>
      obtain ⟨k', v⟩ := p
      by_cases hk : k' = k
      · simp [hk]
      · simp only [keysOf, List.map_cons, List.mem_cons] at h
        rcases h with h | h
        · exact absurd h.symm hk
        · simpa [hk] using ih (by simpa [keysOf] using h)

theorem mem_keys_of_lookupKey_eq_some {κ α : Type} [DecidableEq κ]
    (l : List (κ × α)) (k : κ) (v : α) (h : lookupKey l k = some v) :
    k ∈ keysOf l := by
  induction l with
  | nil => simp [lookupKey] at h
  | cons p rest ih =>
      obtain ⟨k', v'⟩ := p
      by_cases hk : k' = k
      · simp [keysOf, hk]
      · simp only [lookupKey_cons, if_neg hk] at h
        simp [keysOf] at ih ⊢
        exact Or.inr (ih h)

theorem mem_of_lookupKey_eq_some {κ α : Type} [DecidableEq κ]
    (l : List (κ × α)) (k : κ) (v : α) (h : lookupKey l k = some v) :
    (k, v) ∈ l := by
  induction l with
  | nil => simp [lookupKey] at h
  | cons p rest ih =>
      obtain ⟨k', v'⟩ := p
      by_cases hk : k' = k
      · subst hk
        simp only [lookupKey_cons, if_true, eq_self_iff_true, Option.some.injEq] at h
        simp [h]
      · simp only [lookupKey_cons, if_neg hk] at h
        exact List.mem_cons_of_mem _ (ih h)

theorem lookupKey_eq_some_of_mem {κ α : Type} [DecidableEq κ]
    (l : List (κ × α)) (k : κ) (v : α) (hnd : keysNodup l) (h : (k, v) ∈ l) :
    lookupKey l k = some v := by
  induction l with
  | nil => simp at h
  | cons p rest ih =>
      obtain ⟨k', v'⟩ := p
      simp only [keysNodup, keysOf, List.map_cons, List.nodup_cons] at hnd
      rcases List.mem_cons.mp h with h | h
      · cases h
        simp
      · have hk : k' ≠ k := by
          rintro rfl
          exact hnd.1 (by simpa [keysOf] using List.mem_map_of_mem Prod.fst h)
        simpa [hk] using ih (by simpa [keysNodup, keysOf] using hnd.2) h

/-! ### JSON values

Go's `encoding/json` round-trips documents through bytes; the embedding works
at the level of parsed JSON values (objects are association lists, so
"equality up to field order" of the spec becomes plain equality of the
canonical field list). -/

/-- A parsed JSON value. -/
inductive JVal : Type where
  | null : JVal
  | bool (b : Bool) : JVal
  | num (n : Int) : JVal
  | str (s : String) : JVal
  | arr (xs : List JVal) : JVal
  | obj (fields : List (String × JVal)) : JVal

/-! ### db/document.go: document metadata -/

/-- `ChannelRemoval` (db/document.go): JSON fields `seq`, `rev`, `del,omitempty`. -/
structure ChannelRemoval : Type where
  seq : Nat
  revID : String
  deleted : Bool
deriving DecidableEq, Repr

/-- `ChannelMap` (db/document.go): channel name → `nil` (currently in the
channel) or a removal record. -/
abbrev ChannelMap := List (String × Option ChannelRemoval)

/-- A timed-set (channels package, modelled from the spec §3): name → grant
sequence. -/
abbrev TimedSet := List (String × Nat)

/-- `UserAccessMap` (db/document.go): user/role name → timed-set. -/
abbrev UserAccessMap := List (String × TimedSet)

/-- One revision-tree entry. Modelled from the spec §3 (the `RevTree`
implementation is not part of the excerpted source): parent pointer, deleted
flag, body stored as raw JSON bytes or absent, channel set, revoked map. -/
structure RevInfo : Type where
  parent : Option String
  deleted : Bool
  body : Option String
  channels : List String
  revoked : List (String × String)
deriving DecidableEq, Repr

/-- Revision tree: revID → entry. Modelled from the spec §3. -/
abbrev RevTree := List (String × RevInfo)

/-- `syncData` (db/document.go): metadata stored under `_sync`. -/
structure SyncData : Type where
  currentRev : String
  deleted : Bool
  sequence : Nat
  history : RevTree
  channels : ChannelMap
  access : UserAccessMap
  roleAccess : UserAccessMap
deriving DecidableEq, Repr

/-- The empty `syncData` built by `newDocument` (`syncData{History: make(RevTree)}`). -/
def emptySyncData : SyncData :=
  { currentRev := "", deleted := false, sequence := 0, history := [],
    channels := [], access := [], roleAccess := [] }

/-- `document` (db/document.go): syncData plus the current revision's body
(a JSON object) plus the out-of-band doc ID. -/
structure Document : Type where
  sync : SyncData
  body : List (String × JVal)
  id : String

/-- `newDocument` (db/document.go). -/
def newDocument (docid : String) : Document :=
  { sync := emptySyncData, body := [], id := docid }

/-! ### db/document.go: `updateChannels` -/

/-- The removal record `updateChannels` stamps on a channel the document left:
the document's current sequence, current revision and deleted flag. -/
def Document.removalRecord (doc : Document) : ChannelRemoval :=
  { seq := doc.sync.sequence, revID := doc.sync.currentRev, deleted := doc.sync.deleted }

/-- First phase of `updateChannels`: every channel currently mapped to `nil`
that is not in `newChannels` is stamped with a removal record and recorded as
changed (db/document.go lines 119-130). -/
def markRemovals (doc : Document) (newChannels : List String) :
    ChannelMap → ChannelMap × List String
  | [] => ([], [])
  | (c, r) :: rest =>
      let p := markRemovals doc newChannels rest
      if r = none ∧ c ∉ newChannels then
        ((c, some doc.removalRecord) :: p.1, c :: p.2)
      else
        ((c, r) :: p.1, p.2)

/-- Second phase of `updateChannels`: every channel of `newChannels` that is
absent or holds a removal record is mapped to `nil` and recorded as changed
(db/document.go lines 132-138). -/
def markSubscribed : ChannelMap → List String → List String → ChannelMap × List String
  | m, changed, [] => (m, changed)
  | m, changed, c :: cs =>
      match lookupKey m c with
      | some none => markSubscribed m changed cs
      | some (some _) => markSubscribed (setKey m c none) (changed ++ [c]) cs
      | none => markSubscribed (m ++ [(c, none)]) (changed ++ [c]) cs

/-- `document.updateChannels` (db/document.go lines 112-144): returns the
updated document and the list of changed channels (Go returns them as a set;
the list here is duplicate-free under the theorems' hypotheses). -/
def Document.updateChannels (doc : Document) (newChannels : List String) :
    Document × List String :=
  let p₁ := markRemovals doc newChannels doc.sync.channels
  let p₂ := markSubscribed p₁.1 p₁.2 newChannels
  ({ doc with sync := { doc.sync with channels := p₂.1 } }, p₂.2)


theorem lookupKey_setKey {κ α : Type} [DecidableEq κ] (m : List (κ × α))
    (k k' : κ) (v : α) :
    lookupKey (setKey m k v) k' =
      if k' = k then (lookupKey m k).map (fun _ => v) else lookupKey m k' := by
  induction m with
  | nil => by_cases h : k' = k <;> simp [setKey, h]
  | cons p rest ih =>
      obtain ⟨k₀, v₀⟩ := p
      simp only [setKey, List.map_cons] at ih ⊢
      by_cases h0 : k₀ = k
      · subst h0
        by_cases h1 : k' = k₀
        · subst h1; simp
        · simp [h1, Ne.symm h1, ih]
      · by_cases h1 : k' = k
        · subst h1
          have h2 : k₀ ≠ k' := h0
          simp [h0, h2, ih]
        · by_cases h2 : k₀ = k'
          · subst h2; simp [h0]
          · simp [h0, h1, h2, ih]

/-- `markRemovals` transforms the value at each key pointwise: `nil` values of
channels outside `newChannels` become the removal record, all others are kept. -/
theorem markRemovals_lookup (doc : Document) (new : List String) (m : ChannelMap)
    (c : String) :
    lookupKey (markRemovals doc new m).1 c =
      match lookupKey m c with
      | some none => if c ∈ new then some none else some (some doc.removalRecord)
      | x => x := by
  induction m with
  | nil => simp [markRemovals]
  | cons p rest ih =>
      obtain ⟨k, r⟩ := p
      by_cases hk : k = c
      · subst hk
        rcases r with _ | r
        · by_cases hmem : k ∈ new <;> simp [markRemovals, hmem]
        · simp [markRemovals]
      · rcases r with _ | r
        · by_cases hmem : k ∈ new <;> simp [markRemovals, hmem, hk, ih]
        · simp [markRemovals, hk, ih]

/-- Membership in the change list built by `markRemovals`, for duplicate-free
channel maps: exactly the channels that were `nil` and are being left. -/
theorem markRemovals_changed (doc : Document) (new : List String) (m : ChannelMap)
    (hnd : keysNodup m) (c : String) :
    c ∈ (markRemovals doc new m).2 ↔ lookupKey m c = some none ∧ c ∉ new := by
  induction m with
  | nil => simp [markRemovals]
  | cons p rest ih =>
      obtain ⟨k, r⟩ := p
      simp only [keysNodup, keysOf, List.map_cons, List.nodup_cons] at hnd
      have ih' := ih (by simpa [keysNodup, keysOf] using hnd.2)
      by_cases hk : k = c
      · subst hk
        have hrest : lookupKey rest k = none :=
          lookupKey_eq_none rest k (by simpa [keysOf] using hnd.1)
        rcases r with _ | r
        · by_cases hmem : k ∈ new <;>
            simp [markRemovals, hmem, ih', hrest]
        · simp [markRemovals, ih', hrest]
      · rcases r with _ | r
        · by_cases hmem : k ∈ new <;>
            simp [markRemovals, hmem, hk, ih', Ne.symm hk]
        · simp [markRemovals, hk, ih']

/-- Unfolding of one `markSubscribed` step. -/
theorem markSubscribed_cons (m : ChannelMap) (ch : List String) (c₀ : String)
    (cs : List String) :
    markSubscribed m ch (c₀ :: cs) =
      match lookupKey m c₀ with
      | some none => markSubscribed m ch cs
      | some (some _) => markSubscribed (setKey m c₀ none) (ch ++ [c₀]) cs
      | none => markSubscribed (m ++ [(c₀, none)]) (ch ++ [c₀]) cs := rfl

/-- Channels processed by `markSubscribed` end up mapped to `nil` (and a
channel already mapped to `nil` stays that way). -/
theorem markSubscribed_lookup_mem (cs : List String) (m : ChannelMap)
    (ch : List String) (c : String) (hc : c ∈ cs ∨ lookupKey m c = some none) :
    lookupKey (markSubscribed m ch cs).1 c = some none := by
  induction cs generalizing m ch with
  | nil =>
      rcases hc with hc | hc
      · simp at hc
      · simpa [markSubscribed] using hc
  | cons c₀ cs' ih =>
      rw [markSubscribed_cons]
      cases hm : lookupKey m c₀ with
      | none =>
          apply ih
          rcases hc with hc | hc
          · rcases List.mem_cons.mp hc with h | h
            · subst h
              exact Or.inr (by simp [lookupKey_append, hm])
            · exact Or.inl h
          · exact Or.inr (by simp [lookupKey_append, hc])
      | some r =>
          rcases r with _ | r
          · apply ih
            rcases hc with hc | hc
            · rcases List.mem_cons.mp hc with h | h
              · subst h; exact Or.inr hm
              · exact Or.inl h
            · exact Or.inr hc
          · apply ih
            rcases hc with hc | hc
            · rcases List.mem_cons.mp hc with h | h
              · subst h
                exact Or.inr (by simp [lookupKey_setKey, hm])
              · exact Or.inl h
            · have hne : c ≠ c₀ := by
                intro h
                rw [h, hm] at hc
                simp at hc
              exact Or.inr (by simp [lookupKey_setKey, hne, hc])

/-- `markSubscribed` does not touch channels outside its input list. -/
theorem markSubscribed_lookup_frame (cs : List String) (m : ChannelMap)
    (ch : List String) (c : String) (hc : c ∉ cs) :
    lookupKey (markSubscribed m ch cs).1 c = lookupKey m c := by
  induction cs generalizing m ch with
  | nil => simp [markSubscribed]
  | cons c₀ cs' ih =>
      have hne : c ≠ c₀ := fun h => hc (by simp [h])
      have hc' : c ∉ cs' := fun h => hc (List.mem_cons_of_mem _ h)
      rw [markSubscribed_cons]
      cases hm : lookupKey m c₀ with
      | none =>
          rw [ih _ _ hc', lookupKey_append]
          cases hx : lookupKey m c <;> simp [hx, hne, Ne.symm hne]
      | some r =>
          rcases r with _ | r
          · exact ih _ _ hc'
          · rw [ih _ _ hc', lookupKey_setKey]
            simp [hne]

theorem lookupKey_append_single_ne {κ α : Type} [DecidableEq κ]
    (m : List (κ × α)) (k c : κ) (v : α) (h : c ≠ k) :
    lookupKey (m ++ [(k, v)]) c = lookupKey m c := by
  rw [lookupKey_append]
  cases hx : lookupKey m c <;> simp [hx, Ne.symm h]

/-- The change list built by `markSubscribed` over a duplicate-free channel
list: the starting list plus every processed channel that was not already
mapped to `nil`. -/
theorem markSubscribed_changed (cs : List String) (m : ChannelMap)
    (ch : List String) (c : String) (hnd : cs.Nodup) :
    c ∈ (markSubscribed m ch cs).2 ↔
      c ∈ ch ∨ (c ∈ cs ∧ lookupKey m c ≠ some none) := by
  induction cs generalizing m ch with
  | nil => simp [markSubscribed]
  | cons c₀ cs' ih =>
      obtain ⟨hc₀, hnd'⟩ := List.nodup_cons.mp hnd
      rw [markSubscribed_cons]
      cases hm : lookupKey m c₀ with
      | none =>
          rw [ih _ _ hnd']
          by_cases hcc : c = c₀
          · subst hcc
            simp [hm, hc₀]
          · rw [lookupKey_append_single_ne _ _ _ _ hcc]
            simp [hcc]
      | some r =>
          rcases r with _ | r
          · rw [ih _ _ hnd']
            by_cases hcc : c = c₀
            · subst hcc
              simp [hm, hc₀]
            · simp [hcc]
          · rw [ih _ _ hnd']
            by_cases hcc : c = c₀
            · subst hcc
              simp [hm]
            · rw [lookupKey_setKey]
              simp [hcc]

/-- `markRemovals` leaves the value of a channel in `newChannels` unchanged. -/
theorem markRemovals_lookup_of_mem (doc : Document) (new : List String)
    (m : ChannelMap) (c : String) (hc : c ∈ new) :
    lookupKey (markRemovals doc new m).1 c = lookupKey m c := by
  rw [markRemovals_lookup]
  cases hx : lookupKey m c with
  | none => rfl
  | some r => rcases r with _ | r <;> simp [hc]

/-- C8: `updateChannels(newChannels)` replaces every channel currently mapped
to `nil` that is not in `newChannels` with a removal record carrying the
document's current `Sequence`, `CurrentRev` and `Deleted` flag; maps every
channel of `newChannels` to `nil`; and the returned change list holds exactly
the channels whose membership changed (db/document.go lines 112-144). -/
theorem updateChannels_correct (doc : Document) (newChannels : List String)
    (hnd : keysNodup doc.sync.channels) (hnew : newChannels.Nodup) :
    (∀ c ∈ newChannels,
        lookupKey (doc.updateChannels newChannels).1.sync.channels c = some none) ∧
    (∀ c, lookupKey doc.sync.channels c = some none → c ∉ newChannels →
        lookupKey (doc.updateChannels newChannels).1.sync.channels c
          = some (some doc.removalRecord)) ∧
    (∀ c, c ∈ (doc.updateChannels newChannels).2 ↔
        ((lookupKey doc.sync.channels c = some none ∧ c ∉ newChannels) ∨
         (c ∈ newChannels ∧ lookupKey doc.sync.channels c ≠ some none))) := by
  refine ⟨?_, ?_, ?_⟩
  · intro c hc
    exact markSubscribed_lookup_mem _ _ _ _ (Or.inl hc)
  · intro c hcnil hcnot
    show lookupKey (markSubscribed (markRemovals doc newChannels doc.sync.channels).1
      (markRemovals doc newChannels doc.sync.channels).2 newChannels).1 c = _
    rw [markSubscribed_lookup_frame _ _ _ _ hcnot, markRemovals_lookup, hcnil]
    simp [hcnot]
  · intro c
    show c ∈ (markSubscribed (markRemovals doc newChannels doc.sync.channels).1
      (markRemovals doc newChannels doc.sync.channels).2 newChannels).2 ↔ _
    rw [markSubscribed_changed _ _ _ _ hnew, markRemovals_changed _ _ _ hnd]
    by_cases hc : c ∈ newChannels
    · rw [markRemovals_lookup_of_mem _ _ _ _ hc]
    · simp [hc]

/-- Witness for `updateChannels_correct`: the document is in `a` and `b` and
carries a removal record for `c`; the new channel set is `{b, c, d}`.  Channel
`a` is stamped with the removal record, `b` stays `nil` unchanged, `c` rejoins,
`d` joins, and the change list is exactly `{a, c, d}`. -/
theorem updateChannels_correct_witness :
    (let doc : Document :=
      { sync := { currentRev := "2-bbb", deleted := false, sequence := 7,
                  history := [], access := [], roleAccess := [],
                  channels := [("a", none), ("b", none),
                               ("c", some { seq := 3, revID := "1-aaa", deleted := false })] },
        body := [], id := "doc1" }
     let r := doc.updateChannels ["b", "c", "d"]
     lookupKey r.1.sync.channels "a"
        = some (some { seq := 7, revID := "2-bbb", deleted := false }) ∧
     lookupKey r.1.sync.channels "b" = some none ∧
     lookupKey r.1.sync.channels "c" = some none ∧
     lookupKey r.1.sync.channels "d" = some none ∧
     ("a" ∈ r.2 ↔ True) ∧ ("b" ∈ r.2 ↔ False) ∧ ("c" ∈ r.2 ↔ True)) := by
  have h := updateChannels_correct
    { sync := { currentRev := "2-bbb", deleted := false, sequence := 7,
                history := [], access := [], roleAccess := [],
                channels := [("a", none), ("b", none),
                             ("c", some { seq := 3, revID := "1-aaa", deleted := false })] },
      body := [], id := "doc1" }
    ["b", "c", "d"] (by decide) (by decide)
  obtain ⟨h1, h2, h3⟩ := h
  refine ⟨?_, ?_, ?_, ?_, ?_, ?_, ?_⟩
  · exact h2 "a" (by decide) (by decide)
  · exact h1 "b" (by decide)
  · exact h1 "c" (by decide)
  · exact h1 "d" (by decide)
  · simp only [h3 "a"]; decide
  · simp only [h3 "b"]; decide
  · simp only [h3 "c"]; decide

/-! ### JSON encoding and decoding of document metadata (db/document.go,
`MarshalJSON` / `UnmarshalJSON`).  Sub-codecs for the types whose Go
`encoding/json` behaviour is induced by struct tags; the `RevTree` codec is
modelled from the spec (its implementation is not in the excerpt). -/

@[simp] theorem exceptOkBind {ε α β : Type} (a : α) (f : α → Except ε β) :
    (Except.ok a : Except ε α) >>= f = f a := rfl

@[simp] theorem exceptErrBind {ε α β : Type} (e : ε) (f : α → Except ε β) :
    (Except.error e : Except ε α) >>= f = Except.error e := rfl

@[simp] theorem exceptMapOk {ε α β : Type} (a : α) (f : α → β) :
    (Except.ok a : Except ε α).map f = Except.ok (f a) := rfl

/-- Decode every field value of a JSON object with the supplied decoder. -/
def decFields {α : Type} (dec : JVal → Except String α) :
    List (String × JVal) → Except String (List (String × α))
  | [] => .ok []
  | (k, v) :: rest => do
      let a ← dec v
      let r ← decFields dec rest
      .ok ((k, a) :: r)

/-- Decode a JSON object into an association list. -/
def decObj {α : Type} (dec : JVal → Except String α) : JVal → Except String (List (String × α))
  | .obj fs => decFields dec fs
  | _ => .error "expected JSON object"

theorem decFields_encode {α : Type} (dec : JVal → Except String α) (enc : α → JVal)
    (h : ∀ a, dec (enc a) = .ok a) (l : List (String × α)) :
    decFields dec (l.map fun p => (p.1, enc p.2)) = .ok l := by
  induction l with
  | nil => rfl
  | cons p rest ih =>
      obtain ⟨k, a⟩ := p
      simp [decFields, h, ih]

/-- `null` test on a JSON value. -/
def JVal.isNull : JVal → Bool
  | .null => true
  | _ => false

@[simp] theorem JVal.isNull_null : JVal.null.isNull = true := rfl
@[simp] theorem JVal.isNull_bool (b : Bool) : (JVal.bool b).isNull = false := rfl
@[simp] theorem JVal.isNull_num (n : Int) : (JVal.num n).isNull = false := rfl
@[simp] theorem JVal.isNull_str (s : String) : (JVal.str s).isNull = false := rfl
@[simp] theorem JVal.isNull_arr (xs : List JVal) : (JVal.arr xs).isNull = false := rfl
@[simp] theorem JVal.isNull_obj (fs : List (String × JVal)) :
    (JVal.obj fs).isNull = false := rfl

/-- Read one struct field: missing and `null` leave the pre-initialized
default (Go `encoding/json` skips absent fields and treats `null` as a
no-op). -/
def decField {α : Type} (fs : List (String × JVal)) (name : String)
    (dec : JVal → Except String α) (dflt : α) : Except String α :=
  match lookupKey fs name with
  | none => .ok dflt
  | some j => if j.isNull then .ok dflt else dec j

/-- Decoder for Go `string` fields. -/
def decStr : JVal → Except String String
  | .str s => .ok s
  | _ => .error "expected string"

/-- Decoder for Go `bool` fields. -/
def decBool : JVal → Except String Bool
  | .bool b => .ok b
  | _ => .error "expected bool"

/-- Decoder for Go `uint64` fields. -/
def decUInt : JVal → Except String Nat
  | .num n => if 0 ≤ n then .ok n.toNat else .error "expected unsigned number"
  | _ => .error "expected number"

/-- Decoder for a JSON array of strings. -/
def decStrList : List JVal → Except String (List String)
  | [] => .ok []
  | .str s :: rest => do
      let r ← decStrList rest
      .ok (s :: r)
  | _ => .error "expected string array"

theorem decStrList_encode (l : List String) :
    decStrList (l.map JVal.str) = .ok l := by
  induction l with
  | nil => rfl
  | cons s rest ih => simp [decStrList, ih]

/-- JSON form of a `channels.TimedSet` (name → sequence object). -/
def encodeTimedSet (ts : TimedSet) : JVal :=
  .obj (ts.map fun p => (p.1, .num p.2))

def decodeTimedSet : JVal → Except String TimedSet :=
  decObj decUInt

@[simp] theorem decodeTimedSet_encode (ts : TimedSet) :
    decodeTimedSet (encodeTimedSet ts) = .ok ts := by
  show decFields decUInt (ts.map fun p => (p.1, JVal.num p.2)) = .ok ts
  exact decFields_encode decUInt (fun n => JVal.num n)
    (fun a => by simp [decUInt]) ts

/-- JSON form of `ChannelRemoval` (tags `seq`, `rev`, `del,omitempty`). -/
def encodeChannelRemoval (r : ChannelRemoval) : JVal :=
  .obj ([("seq", .num r.seq), ("rev", .str r.revID)] ++
    (if r.deleted then [("del", .bool true)] else []))

def decodeChannelRemoval : JVal → Except String ChannelRemoval
  | .obj fs => do
      let seq ← decField fs "seq" decUInt 0
      let rev ← decField fs "rev" decStr ""
      let del ← decField fs "del" decBool false
      .ok { seq := seq, revID := rev, deleted := del }
  | _ => .error "expected channel removal object"

@[simp] theorem decodeChannelRemoval_encode (r : ChannelRemoval) :
    decodeChannelRemoval (encodeChannelRemoval r) = .ok r := by
  obtain ⟨s, rv, d⟩ := r
  cases d <;>
    simp [encodeChannelRemoval, decodeChannelRemoval, decField, JVal.isNull, decUInt,
      decStr, decBool]

/-- JSON form of a `ChannelMap` value: `nil` removal pointers become `null`. -/
def encodeChannelValue : Option ChannelRemoval → JVal
  | none => .null
  | some r => encodeChannelRemoval r

def decodeChannelValue : JVal → Except String (Option ChannelRemoval)
  | .null => .ok none
  | j => (decodeChannelRemoval j).map some

def encodeChannelMap (m : ChannelMap) : JVal :=
  .obj (m.map fun p => (p.1, encodeChannelValue p.2))

def decodeChannelMap : JVal → Except String ChannelMap :=
  decObj decodeChannelValue

@[simp] theorem decodeChannelValue_encode (v : Option ChannelRemoval) :
    decodeChannelValue (encodeChannelValue v) = .ok v := by
  rcases v with _ | r
  · rfl
  · show (decodeChannelRemoval (encodeChannelRemoval r)).map some = .ok (some r)
    rw [decodeChannelRemoval_encode]
    rfl

@[simp] theorem decodeChannelMap_encode (m : ChannelMap) :
    decodeChannelMap (encodeChannelMap m) = .ok m := by
  show decFields decodeChannelValue (m.map fun p => (p.1, encodeChannelValue p.2)) = .ok m
  exact decFields_encode decodeChannelValue encodeChannelValue
    (fun a => decodeChannelValue_encode a) m

/-- JSON form of a `UserAccessMap`. -/
def encodeUserAccessMap (m : UserAccessMap) : JVal :=
  .obj (m.map fun p => (p.1, encodeTimedSet p.2))

def decodeUserAccessMap : JVal → Except String UserAccessMap :=
  decObj decodeTimedSet

@[simp] theorem decodeUserAccessMap_encode (m : UserAccessMap) :
    decodeUserAccessMap (encodeUserAccessMap m) = .ok m := by
  show decFields decodeTimedSet (m.map fun p => (p.1, encodeTimedSet p.2)) = .ok m
  exact decFields_encode decodeTimedSet encodeTimedSet
    (fun a => decodeTimedSet_encode a) m

/-- JSON form of a revision-tree entry.  Modelled from the spec §3: a direct
field-wise encoding of `{revID, parentRevID|nil, deleted?, body-or-absent,
channels, revoked}` (the on-disk `RevTree` codec is not in the excerpt). -/
def encodeRevInfo (ri : RevInfo) : JVal :=
  .obj [("parent", match ri.parent with | none => .null | some p => .str p),
        ("deleted", .bool ri.deleted),
        ("body", match ri.body with | none => .null | some b => .str b),
        ("channels", .arr (ri.channels.map .str)),
        ("revoked", .obj (ri.revoked.map fun p => (p.1, .str p.2)))]

def decodeRevInfo : JVal → Except String RevInfo
  | .obj fs => do
      let parent ← match lookupKey fs "parent" with
        | some .null => .ok none
        | some (.str p) => .ok (some p)
        | _ => .error "expected parent"
      let del ← decField fs "deleted" decBool false
      let body ← match lookupKey fs "body" with
        | some .null => .ok none
        | some (.str b) => .ok (some b)
        | _ => .error "expected body"
      let chans ← match lookupKey fs "channels" with
        | some (.arr xs) => decStrList xs
        | _ => .error "expected channels"
      let revoked ← match lookupKey fs "revoked" with
        | some j => decObj decStr j
        | _ => .error "expected revoked"
      .ok { parent := parent, deleted := del, body := body,
            channels := chans, revoked := revoked }
  | _ => .error "expected revision entry object"

@[simp] theorem decodeRevInfo_encode (ri : RevInfo) :
    decodeRevInfo (encodeRevInfo ri) = .ok ri := by
  obtain ⟨p, d, b, cs, rv⟩ := ri
  have hrv : decObj decStr (.obj (rv.map fun q => (q.1, .str q.2))) = .ok rv := by
    show decFields decStr (rv.map fun q => (q.1, JVal.str q.2)) = .ok rv
    exact decFields_encode decStr (fun s => JVal.str s) (fun a => by simp [decStr]) rv
  rcases p with _ | p <;> rcases b with _ | b <;>
    simp [encodeRevInfo, decodeRevInfo, decField, JVal.isNull, decBool,
      decStrList_encode, hrv]

/-- JSON form of a revision tree.  Modelled from the spec §3. -/
def encodeRevTree (h : RevTree) : JVal :=
  .obj (h.map fun p => (p.1, encodeRevInfo p.2))

def decodeRevTree : JVal → Except String RevTree :=
  decObj decodeRevInfo

@[simp] theorem decodeRevTree_encode (h : RevTree) :
    decodeRevTree (encodeRevTree h) = .ok h := by
  show decFields decodeRevInfo (h.map fun p => (p.1, encodeRevInfo p.2)) = .ok h
  exact decFields_encode decodeRevInfo encodeRevInfo
    (fun a => decodeRevInfo_encode a) h


/-- JSON form of `syncData` (struct tags in db/document.go lines 30-38:
`rev`, `deleted,omitempty`, `sequence`, `history`, `channels,omitempty`,
`access,omitempty`, `role_access,omitempty`). -/
def encodeSyncData (sd : SyncData) : JVal :=
  .obj ([("rev", .str sd.currentRev)] ++
    (if sd.deleted then [("deleted", .bool true)] else []) ++
    [("sequence", .num sd.sequence), ("history", encodeRevTree sd.history)] ++
    (if sd.channels.isEmpty then [] else [("channels", encodeChannelMap sd.channels)]) ++
    (if sd.access.isEmpty then [] else [("access", encodeUserAccessMap sd.access)]) ++
    (if sd.roleAccess.isEmpty then [] else
      [("role_access", encodeUserAccessMap sd.roleAccess)]))

/-- Decode a `_sync` value into `syncData`: absent fields keep the zero value
of the pre-initialized struct. -/
def decodeSyncData : JVal → Except String SyncData
  | .obj fs => do
      let rev ← decField fs "rev" decStr ""
      let del ← decField fs "deleted" decBool false
      let seq ← decField fs "sequence" decUInt 0
      let hist ← decField fs "history" decodeRevTree []
      let chans ← decField fs "channels" decodeChannelMap []
      let acc ← decField fs "access" decodeUserAccessMap []
      let racc ← decField fs "role_access" decodeUserAccessMap []
      .ok { currentRev := rev, deleted := del, sequence := seq, history := hist,
            channels := chans, access := acc, roleAccess := racc }
  | _ => .error "expected _sync object"

@[simp] theorem encodeRevTree_isNull (h : RevTree) :
    (encodeRevTree h).isNull = false := rfl

@[simp] theorem encodeChannelMap_isNull (m : ChannelMap) :
    (encodeChannelMap m).isNull = false := rfl

@[simp] theorem encodeUserAccessMap_isNull (m : UserAccessMap) :
    (encodeUserAccessMap m).isNull = false := rfl

@[simp] theorem decodeSyncData_encode (sd : SyncData) :
    decodeSyncData (encodeSyncData sd) = .ok sd := by
  obtain ⟨rev, del, seq, hist, chans, acc, racc⟩ := sd
  cases del <;>
    rcases chans with _ | ⟨c₀, chans⟩ <;>
    rcases acc with _ | ⟨a₀, acc⟩ <;>
    rcases racc with _ | ⟨r₀, racc⟩ <;>
      simp [encodeSyncData, decodeSyncData, decField, decStr, decBool,
        decUInt, List.isEmpty]

/-! ### db/document.go: `MarshalJSON`, `UnmarshalJSON`, `unmarshalDocument` -/

/-- `document.MarshalJSON` (db/document.go lines 207-216): the body's
properties at top level plus the syncData under `_sync`.  (Go temporarily
overwrites any existing `_sync` body property and then deletes it; the
round-trip theorem therefore assumes the body does not use the reserved key.) -/
def marshalDocument (doc : Document) : JVal :=
  .obj (doc.body ++ [("_sync", encodeSyncData doc.sync)])

/-- Outcome of `document.UnmarshalJSON`: Go can panic, return an error, or
fill in the receiver. -/
inductive UnmarshalOutcome : Type where
  | panicked : UnmarshalOutcome
  | err (msg : String) : UnmarshalOutcome
  | ok (doc : Document) : UnmarshalOutcome

/-- The `_sync` extraction of `UnmarshalJSON`: a missing `_sync` leaves the
pre-initialized empty syncData of `documentRoot`, a `null` `_sync` sets the
pointer to nil so the receiver's existing syncData survives, anything else is
decoded. -/
def syncFromFields (doc : Document) (fs : List (String × JVal)) :
    Except String SyncData :=
  match lookupKey fs "_sync" with
  | none => .ok emptySyncData
  | some .null => .ok doc.sync
  | some j => decodeSyncData j

/-- `document.UnmarshalJSON` (db/document.go lines 184-205).  Panics when the
receiver has no ID.  Otherwise unmarshals `_sync` (see `syncFromFields`),
unmarshals all top-level fields into the body, and deletes `_sync` from the
body.  A top-level JSON `null` is a no-op for both unmarshal steps. -/
def unmarshalJSONDoc (doc : Document) (data : JVal) : UnmarshalOutcome :=
  if doc.id = "" then .panicked
  else
    match data with
    | .null => .ok { doc with sync := emptySyncData }
    | .obj fs =>
        match syncFromFields doc fs with
        | .error e => .err e
        | .ok sd => .ok { doc with sync := sd, body := eraseKey fs "_sync" }
    | _ => .err "json: cannot unmarshal value into documentRoot"

/-- `unmarshalDocument` (db/document.go lines 55-63): builds a fresh document
with the given ID and unmarshals the data into it when the data is non-empty
(`none` models empty bytes). -/
def unmarshalDocument (docid : String) (data : Option JVal) : UnmarshalOutcome :=
  match data with
  | none => .ok (newDocument docid)
  | some j => unmarshalJSONDoc (newDocument docid) j

/-- C9 counterexample: the claim quantifies over *every* docid, but
`unmarshalDocument` with an empty docid and non-empty data reaches the panic
in `UnmarshalJSON`: the ID it sets is the empty string, which is exactly the
panic condition. -/
theorem unmarshalDocument_empty_docid_panics :
    unmarshalDocument "" (some (.obj [])) = .panicked := rfl

/-- C9 (amended): `UnmarshalJSON` panics exactly when the receiver's ID is
empty, and the `unmarshalDocument` path never panics for a non-empty docid. -/
theorem unmarshalDocument_no_panic :
    (∀ (doc : Document) (data : JVal), doc.id = "" →
        unmarshalJSONDoc doc data = .panicked) ∧
    (∀ (docid : String) (data : Option JVal), docid ≠ "" →
        unmarshalDocument docid data ≠ .panicked) := by
  constructor
  · intro doc data h
    simp [unmarshalJSONDoc, h]
  · intro docid data h
    have hne : ¬ (newDocument docid).id = "" := h
    rcases data with _ | j
    · simp [unmarshalDocument]
    · show unmarshalJSONDoc (newDocument docid) j ≠ .panicked
      unfold unmarshalJSONDoc
      rw [if_neg hne]
      rcases j with _ | b | n | s | xs | fs <;> simp
      cases hs : syncFromFields (newDocument docid) fs <;> simp [hs]

/-- Witness for `unmarshalDocument_no_panic`: a receiver with an empty ID
panics on `{}`, and `unmarshalDocument "d"` on `{}` does not panic. -/
theorem unmarshalDocument_no_panic_witness :
    unmarshalJSONDoc (newDocument "") (.obj []) = .panicked ∧
    unmarshalDocument "d" (some (.obj [])) ≠ .panicked :=
  ⟨unmarshalDocument_no_panic.1 (newDocument "") (.obj []) rfl,
   unmarshalDocument_no_panic.2 "d" (some (.obj [])) (by decide)⟩

theorem eraseKey_append_not_mem {κ α : Type} [DecidableEq κ]
    (l : List (κ × α)) (k : κ) (v : α) (h : k ∉ keysOf l) :
    eraseKey (l ++ [(k, v)]) k = l := by
  induction l with
  | nil => simp
  | cons p rest ih =>
      obtain ⟨k', v'⟩ := p
      simp only [keysOf, List.map_cons, List.mem_cons] at h
      push_neg at h
      simp [Ne.symm h.1, ih (by simpa [keysOf] using h.2)]

/-- Round trip for documents: unmarshalling the marshalled form restores the
body at top level and the syncData from `_sync` (the hypotheses say the doc
has an ID — otherwise unmarshalling panics — and that the body does not use
the reserved `_sync` key, which marshalling would clobber). -/
theorem unmarshal_marshal_document (doc : Document) (hid : doc.id ≠ "")
    (hbody : "_sync" ∉ keysOf doc.body) :
    unmarshalDocument doc.id (some (marshalDocument doc)) = .ok doc := by
  show unmarshalJSONDoc (newDocument doc.id) (marshalDocument doc) = .ok doc
  unfold unmarshalJSONDoc marshalDocument
  rw [if_neg (show ¬ (newDocument doc.id).id = "" from hid)]
  have hlook : lookupKey (doc.body ++ [("_sync", encodeSyncData doc.sync)]) "_sync"
      = some (encodeSyncData doc.sync) := by
    rw [lookupKey_append, lookupKey_eq_none _ _ hbody]
    simp
  have hsync : syncFromFields (newDocument doc.id)
      (doc.body ++ [("_sync", encodeSyncData doc.sync)]) = .ok doc.sync := by
    unfold syncFromFields
    rw [hlook]
    show decodeSyncData (encodeSyncData doc.sync) = .ok doc.sync
    exact decodeSyncData_encode doc.sync
  simp only [hsync, eraseKey_append_not_mem _ _ _ hbody]
  rfl

/-! ### rest/changes_api.go: the `generateChanges` feed loop (lines 462-619)

The feed channel is modelled as a script: the list of messages the producer
will deliver, in order; each message carries a readiness flag saying whether
it is already buffered in the channel when the inner non-blocking drain polls
(`default:` fires otherwise).  The end of the script is the closed channel.
The select branches other than the feed (heartbeat, timeout, client
disconnect, terminator) fire on real-time events and are not taken in the
modelled runs; the `send` callback is modelled as always succeeding and its
calls are recorded. -/

/-- A `db.ChangeEntry` as far as the loop inspects it: identity plus the
`Err` field. -/
structure ChangeEntry : Type where
  seq : Nat
  hasErr : Bool
deriving DecidableEq, Repr

/-- One message on the feed channel: a change entry, or the `nil` caught-up
marker. -/
inductive FeedMsg : Type where
  | entry (e : ChangeEntry) : FeedMsg
  | caughtUp : FeedMsg
deriving DecidableEq, Repr

/-- The feed script: messages paired with their drain-readiness. -/
abbrev FeedScript := List (FeedMsg × Bool)

/-- One recorded invocation of the `send` callback. -/
inductive SendEvent : Type where
  | batch (entries : List ChangeEntry) : SendEvent
  | nilSend : SendEvent
deriving DecidableEq, Repr

/-- Result of the inner `collect` loop. -/
structure CollectResult : Type where
  entries : List ChangeEntry
  rest : FeedScript
  waiting : Bool
  errBreak : Bool
deriving DecidableEq, Repr

/-- The inner `collect` loop (changes_api.go lines 552-569): drain additional
entries non-blockingly while the batch holds fewer than 20, stopping on a
non-ready channel (`default:`), the closed channel, a `nil` entry (sets
`waiting`), or an entry error (breaks the outer loop). -/
def collectLoop (script : FeedScript) (entries : List ChangeEntry) : CollectResult :=
  if entries.length ≥ 20 then ⟨entries, script, false, false⟩
  else
    match script with
    | [] => ⟨entries, [], false, false⟩
    | (m, ready) :: rest =>
        if ready then
          match m with
          | .caughtUp => ⟨entries, rest, true, false⟩
          | .entry e =>
              if e.hasErr then ⟨entries, rest, false, true⟩
              else collectLoop rest (entries ++ [e])
        else ⟨entries, script, false, false⟩

theorem collectLoop_rest_le (script : FeedScript) (entries : List ChangeEntry) :
    (collectLoop script entries).rest.length ≤ script.length := by
  induction script generalizing entries with
  | nil => simp [collectLoop]
  | cons p rest ih =>
      obtain ⟨m, ready⟩ := p
      by_cases h20 : entries.length ≥ 20
      · simp [collectLoop, h20]
      · cases m with
        | caughtUp =>
            by_cases hr : ready <;> simp [collectLoop, h20, hr]
        | entry e =>
            by_cases hr : ready
            · by_cases he : e.hasErr
              · simp [collectLoop, h20, hr, he]
              · have := ih (entries ++ [e])
                simp [collectLoop, h20, hr, he]
                omega
            · simp [collectLoop, h20, hr]

/-- Number of change entries a script will deliver. -/
def entryCount (script : FeedScript) : Nat :=
  (script.map fun p => match p.1 with | .entry _ => 1 | .caughtUp => 0).sum

/-- No entry of the script carries an error. -/
def scriptNoErr (script : FeedScript) : Bool :=
  script.all fun p => match p.1 with | .entry e => !e.hasErr | .caughtUp => true

@[simp] theorem entryCount_nil : entryCount [] = 0 := rfl

@[simp] theorem entryCount_cons (m : FeedMsg) (b : Bool) (rest : FeedScript) :
    entryCount ((m, b) :: rest) =
      (match m with | .entry _ => 1 | .caughtUp => 0) + entryCount rest := by
  simp [entryCount]

theorem collectLoop_count (script : FeedScript) (entries : List ChangeEntry)
    (h : scriptNoErr script = true) :
    (collectLoop script entries).errBreak = false ∧
    (collectLoop script entries).entries.length
        + entryCount (collectLoop script entries).rest
      = entries.length + entryCount script ∧
    scriptNoErr (collectLoop script entries).rest = true := by
  induction script generalizing entries with
  | nil => simpa [collectLoop] using h
  | cons p rest ih =>
      obtain ⟨m, ready⟩ := p
      have hrest : scriptNoErr rest = true := by
        simp [scriptNoErr] at h ⊢
        exact h.2
      by_cases h20 : entries.length ≥ 20
      · simpa [collectLoop, h20] using h
      · cases m with
        | caughtUp =>
            by_cases hr : ready <;> simpa [collectLoop, h20, hr] using h
        | entry e =>
            have he : e.hasErr = false := by
              simp [scriptNoErr] at h
              exact h.1
            by_cases hr : ready
            · have := ih (entries ++ [e]) hrest
              simp [collectLoop, h20, hr, he] at this ⊢
              refine ⟨this.1, by omega, this.2.2⟩
            · simpa [collectLoop, h20, hr] using h

/-- The outer loop of `generateChanges` (changes_api.go lines 505-616): the
blocking select receives the next message; entries start a batch, the batch
is drained and sent, a trailing caught-up marker sends `nil`, and when a
positive limit is reached the loop sets forceClose and exits.  The script end
(closed channel) ends a one-shot feed with forceClose unset. -/
def changesLoop (limit : Int) (script : FeedScript) : List SendEvent × Bool :=
  match script with
  | [] => ([], false)
  | (m, _) :: rest =>
      match m with
      | .caughtUp =>
          let r := changesLoop limit rest
          (.nilSend :: r.1, r.2)
      | .entry e =>
          if e.hasErr then ([], false)
          else
            let c := collectLoop rest [e]
            if c.errBreak then ([], false)
            else
              let sends0 := SendEvent.batch c.entries ::
                (if c.waiting then [SendEvent.nilSend] else [])
              if 0 < limit then
                if limit ≤ (c.entries.length : Int) then (sends0, true)
                else
                  let r := changesLoop (limit - c.entries.length) c.rest
                  (sends0 ++ r.1, r.2)
              else
                let r := changesLoop limit c.rest
                (sends0 ++ r.1, r.2)
termination_by script.length
decreasing_by
  · simp
  · have := collectLoop_rest_le rest [e]
    simp
    omega
  · have := collectLoop_rest_le rest [e]
    simp
    omega

/-- Total number of entries across all batches handed to `send`. -/
def batchTotal (sends : List SendEvent) : Nat :=
  (sends.map fun s => match s with | .batch es => es.length | .nilSend => 0).sum

@[simp] theorem batchTotal_nil : batchTotal [] = 0 := rfl

@[simp] theorem batchTotal_cons (s : SendEvent) (rest : List SendEvent) :
    batchTotal (s :: rest) =
      (match s with | .batch es => es.length | .nilSend => 0) + batchTotal rest := by
  simp [batchTotal]

@[simp] theorem batchTotal_append (a b : List SendEvent) :
    batchTotal (a ++ b) = batchTotal a + batchTotal b := by
  simp [batchTotal]

theorem changesLoop_limit_aux :
    ∀ (n : Nat) (script : FeedScript) (limit : Int), script.length ≤ n →
      0 < limit → scriptNoErr script = true → limit ≤ (entryCount script : Int) →
      (changesLoop limit script).2 = true ∧
      limit ≤ (batchTotal (changesLoop limit script).1 : Int) := by
  intro n
  induction n with
  | zero =>
      intro script limit hlen h0 hne hcount
      have hs : script = [] := List.length_eq_zero.mp (Nat.le_zero.mp hlen)
      subst hs
      simp [entryCount] at hcount
      omega
  | succ n ih =>
      intro script limit hlen h0 hne hcount
      rcases script with _ | ⟨⟨m, rdy⟩, rest⟩
      · simp [entryCount] at hcount
        omega
      · have hlen' : rest.length ≤ n := by
          simp only [List.length_cons] at hlen
          omega
        cases m with
        | caughtUp =>
            have hrest : scriptNoErr rest = true := by
              simp only [scriptNoErr, List.all_cons, Bool.and_eq_true] at hne
              exact hne.2
            have hcount' : limit ≤ (entryCount rest : Int) := by
              simp only [entryCount_cons] at hcount
              simpa using hcount
            have hres := ih rest limit hlen' h0 hrest hcount'
            simp only [changesLoop]
            simpa using hres
        | entry e =>
            have he : e.hasErr = false := by
              simp only [scriptNoErr, List.all_cons, Bool.and_eq_true] at hne
              simpa using hne.1
            have hrest : scriptNoErr rest = true := by
              simp only [scriptNoErr, List.all_cons, Bool.and_eq_true] at hne
              exact hne.2
            obtain ⟨hce, hcc, hcn⟩ := collectLoop_count rest [e] hrest
            have hcountS : limit ≤ 1 + (entryCount rest : Int) := by
              simp only [entryCount_cons] at hcount
              push_cast at hcount
              omega
            by_cases hlim : limit ≤ ((collectLoop rest [e]).entries.length : Int)
            · simp only [changesLoop, he, Bool.false_eq_true, if_false, hce, h0,
                if_pos h0, if_pos hlim]
              refine ⟨rfl, ?_⟩
              cases hw : (collectLoop rest [e]).waiting <;>
                simpa [hw] using hlim
            · have hlt : ((collectLoop rest [e]).entries.length : Int) < limit := by
                omega
              have h0' : 0 < limit - (collectLoop rest [e]).entries.length := by
                omega
              have hcount' : limit - (collectLoop rest [e]).entries.length
                  ≤ (entryCount (collectLoop rest [e]).rest : Int) := by
                simp only [List.length_singleton] at hcc
                omega
              have hlen'' : (collectLoop rest [e]).rest.length ≤ n :=
                le_trans (collectLoop_rest_le rest [e]) hlen'
              have hres := ih (collectLoop rest [e]).rest _ hlen'' h0' hcn hcount'
              simp only [changesLoop, he, Bool.false_eq_true, if_false, hce,
                if_pos h0, if_neg hlim]
              refine ⟨by simpa using hres.1, ?_⟩
              have hb := hres.2
              cases hw : (collectLoop rest [e]).waiting <;>
                · simp [hw, batchTotal_append]
                  push_cast at hb ⊢
                  omega

/-- C1 (amended): for every feed invocation with limit `L > 0` whose source
feed supplies at least `L` error-free entries, the batches handed to `send`
sum to **at least** `L` entries (the batch that crosses the limit may exceed
the remaining limit, because up to 20 entries are drained into it before the
limit is checked), and after that batch is emitted `forceClose` is set and
the loop exits. -/
theorem generateChanges_limit (limit : Int) (script : FeedScript)
    (h0 : 0 < limit) (hne : scriptNoErr script = true)
    (hcount : limit ≤ (entryCount script : Int)) :
    (changesLoop limit script).2 = true ∧
    limit ≤ (batchTotal (changesLoop limit script).1 : Int) :=
  changesLoop_limit_aux script.length script limit le_rfl h0 hne hcount

/-- Ten error-free entries, all already buffered when the drain polls. -/
def scriptTen : FeedScript :=
  [(.entry ⟨1, false⟩, true), (.entry ⟨2, false⟩, true), (.entry ⟨3, false⟩, true),
   (.entry ⟨4, false⟩, true), (.entry ⟨5, false⟩, true), (.entry ⟨6, false⟩, true),
   (.entry ⟨7, false⟩, true), (.entry ⟨8, false⟩, true), (.entry ⟨9, false⟩, true),
   (.entry ⟨10, false⟩, true)]

/-- C1 counterexample: with limit 5 and a source feed supplying 10 entries
(all immediately available), the single batch drained before the limit check
holds all 10 entries, so the batches sum to 10, not exactly 5 — the loop still
sets forceClose and exits. -/
theorem generateChanges_limit_counterexample :
    0 < (5 : Int) ∧ scriptNoErr scriptTen = true ∧ entryCount scriptTen = 10 ∧
    batchTotal (changesLoop 5 scriptTen).1 = 10 ∧
    batchTotal (changesLoop 5 scriptTen).1 ≠ 5 ∧
    (changesLoop 5 scriptTen).2 = true := by
  have hrun : changesLoop 5 scriptTen =
      ([SendEvent.batch [⟨1, false⟩, ⟨2, false⟩, ⟨3, false⟩, ⟨4, false⟩, ⟨5, false⟩,
        ⟨6, false⟩, ⟨7, false⟩, ⟨8, false⟩, ⟨9, false⟩, ⟨10, false⟩]], true) := by
    simp [changesLoop, scriptTen, collectLoop]
  refine ⟨by norm_num, by decide, by decide, ?_, ?_, ?_⟩ <;> simp [hrun, batchTotal]

/-- Witness for `generateChanges_limit` at limit 5 over `scriptTen`. -/
theorem generateChanges_limit_witness :
    (changesLoop 5 scriptTen).2 = true ∧
    (5 : Int) ≤ (batchTotal (changesLoop 5 scriptTen).1 : Int) :=
  generateChanges_limit 5 scriptTen (by norm_num) (by decide) (by decide)

/-! ### rest/changes_api.go: `handleChanges` filter validation (lines 244-329) -/

/-- The request parameters `handleChanges` inspects for filter validation:
feed type (empty when unspecified), filter name, and the parsed channels and
doc-ID arrays (`none` models a Go nil slice). -/
structure ChangesParams : Type where
  feed : String
  filter : String
  channelsArray : Option (List String)
  docIdsArray : Option (List String)
deriving DecidableEq, Repr

/-- What `handleChanges` decides before running a feed: an HTTP error (no
feed is opened), or which feed to open and the doc-ID filter handed to it. -/
inductive ChangesOutcome : Type where
  | httpError (status : Nat) (msg : String) : ChangesOutcome
  | proceed (effectiveFeed : String) (docIDFilter : Option (List String)) : ChangesOutcome
deriving DecidableEq, Repr

/-- The feed dispatch switch (changes_api.go lines 302-319): only `normal`
passes the doc-ID filter through (line 304); an unknown feed type is a 400. -/
def dispatchFeed (feed : String) (filter : String) (docIds : Option (List String)) :
    ChangesOutcome :=
  if feed = "normal" then
    .proceed feed (if filter = "_doc_ids" then docIds else none)
  else if feed = "longpoll" ∨ feed = "continuous" ∨ feed = "websocket" then
    .proceed feed none
  else .httpError 400 "Unknown feed type"

/-- `handleChanges` from the feed-type default (lines 245-247) through filter
validation (lines 252-278) to the dispatch: every `httpError` is returned
before any feed is opened.  The channel-name validation done by
`SetFromArray` in the bychannel branch is not part of the excerpt and is not
modelled; that branch only reproduces the nil and empty checks. -/
def handleChangesValidate (p : ChangesParams) : ChangesOutcome :=
  let feed := if p.feed = "" then "normal" else p.feed
  if p.filter ≠ "" then
    if p.filter = "sync_gateway/bychannel" then
      match p.channelsArray with
      | none => .httpError 400 "Missing channels filter parameter"
      | some arr =>
          if arr.isEmpty then .httpError 400 "Empty channel list"
          else dispatchFeed feed p.filter p.docIdsArray
    else if p.filter = "_doc_ids" then
      if feed ≠ "normal" then
        .httpError 400 "Filter _doc_ids is only valid for feed=normal replications"
      else
        match p.docIdsArray with
        | none => .httpError 400 "Missing doc_ids filter parameter"
        | some ids =>
            if ids.isEmpty then .httpError 400 "Empty doc_ids list"
            else dispatchFeed feed p.filter p.docIdsArray
    else .httpError 400 "Unknown filter; try sync_gateway/bychannel or _doc_ids"
  else dispatchFeed feed p.filter p.docIdsArray

/-- C10: the `_doc_ids` filter is accepted only for the (defaulted) feed type
`normal` — any other feed type fails with HTTP 400 before a feed is opened —
and a missing (`nil`) or empty doc-ID list also fails with HTTP 400; with a
non-empty list and feed `normal` the request proceeds, the feed opened being
`normal` with exactly that doc-ID filter. -/
theorem handleChanges_docids_filter (p : ChangesParams) (hf : p.filter = "_doc_ids") :
    ((if p.feed = "" then "normal" else p.feed) ≠ "normal" →
        handleChangesValidate p =
          .httpError 400 "Filter _doc_ids is only valid for feed=normal replications") ∧
    ((if p.feed = "" then "normal" else p.feed) = "normal" → p.docIdsArray = none →
        handleChangesValidate p = .httpError 400 "Missing doc_ids filter parameter") ∧
    ((if p.feed = "" then "normal" else p.feed) = "normal" → p.docIdsArray = some [] →
        handleChangesValidate p = .httpError 400 "Empty doc_ids list") ∧
    (∀ ids, ids ≠ [] → (if p.feed = "" then "normal" else p.feed) = "normal" →
        p.docIdsArray = some ids →
        handleChangesValidate p = .proceed "normal" (some ids)) := by
  have h1 : ¬("_doc_ids" : String) = "" := by decide
  have h2 : ¬("_doc_ids" : String) = "sync_gateway/bychannel" := by decide
  refine ⟨?_, ?_, ?_, ?_⟩
  · intro heff
    simp [handleChangesValidate, hf, h1, h2, heff]
  · intro heff hids
    simp [handleChangesValidate, hf, h1, h2, heff, hids]
  · intro heff hids
    simp [handleChangesValidate, hf, h1, h2, heff, hids]
  · intro ids hne heff hids
    simp [handleChangesValidate, hf, h1, h2, heff, hids, hne, dispatchFeed]

/-- Witness for `handleChanges_docids_filter`: a continuous feed with
`_doc_ids` is a 400; so are a nil and an empty doc-ID list on a normal feed;
an unspecified feed with a doc-ID list proceeds as a normal feed carrying
that filter. -/
theorem handleChanges_docids_filter_witness :
    handleChangesValidate ⟨"continuous", "_doc_ids", none, some ["a"]⟩
      = .httpError 400 "Filter _doc_ids is only valid for feed=normal replications" ∧
    handleChangesValidate ⟨"", "_doc_ids", none, none⟩
      = .httpError 400 "Missing doc_ids filter parameter" ∧
    handleChangesValidate ⟨"normal", "_doc_ids", none, some []⟩
      = .httpError 400 "Empty doc_ids list" ∧
    handleChangesValidate ⟨"", "_doc_ids", none, some ["a"]⟩
      = .proceed "normal" (some ["a"]) :=
  ⟨(handleChanges_docids_filter ⟨"continuous", "_doc_ids", none, some ["a"]⟩ rfl).1
      (by decide),
   (handleChanges_docids_filter ⟨"", "_doc_ids", none, none⟩ rfl).2.1 (by decide) rfl,
   (handleChanges_docids_filter ⟨"normal", "_doc_ids", none, some []⟩ rfl).2.2.1
      (by decide) rfl,
   (handleChanges_docids_filter ⟨"", "_doc_ids", none, some ["a"]⟩ rfl).2.2.2
      ["a"] (by decide) (by decide) rfl⟩

/-! ### auth: principals, passwords, channel authorization

The authenticator implementation is not part of the excerpt — only its test
file is (src/unnamed/part_000) — so the principal operations are modelled
from the spec §4.5 and pinned against that test's assertions
(`userAccess_test_assertions` below reproduces them).  bcrypt is abstracted
as an injective tagging function and the constant-time compare as equality
of tags. -/

/-- Modelled from the spec: bcrypt hashing, abstracted as an injective tag. -/
def bcryptHashModel (password : String) : String := "bcrypt$" ++ password

/-- A user principal as far as the excerpted tests inspect it. -/
structure UserModel : Type where
  name : String
  email : String
  passwordHash : Option String
  explicitChannels : TimedSet
  channels : TimedSet
deriving DecidableEq, Repr

/-- Modelled from the spec: `SetPassword` stores no hash for an empty
password and the bcrypt hash otherwise. -/
def UserModel.setPassword (u : UserModel) (password : String) : UserModel :=
  { u with passwordHash :=
      if password = "" then none else some (bcryptHashModel password) }

/-- Modelled from the spec: `newUser(name, password, channels)` — a fresh
user carries the explicit channels and always the universal channel `!`
(name validation is out of scope of the claims). -/
def newUser (name password : String) (chans : List String) : UserModel :=
  UserModel.setPassword
    { name := name, email := "", passwordHash := none,
      explicitChannels := chans.map fun c => (c, 1),
      channels := (chans.map fun c => (c, 1)) ++ [("!", 1)] }
    password

/-- `setChannels`, as used by TestUserAccess: replaces the computed channel
timed-set outright. -/
def UserModel.setChannels (u : UserModel) (ts : TimedSet) : UserModel :=
  { u with channels := ts }

/-- Modelled from the spec: `setEmail` (validation out of scope here). -/
def UserModel.setEmail (u : UserModel) (e : String) : UserModel :=
  { u with email := e }

/-- Modelled from the spec §4.5: `canSeeChannel(c)` — true iff `channels`
contains `c` or contains the wildcard `*`. -/
def UserModel.canSeeChannel (u : UserModel) (c : String) : Bool :=
  (lookupKey u.channels c).isSome || (lookupKey u.channels "*").isSome

/-- The Go authorization calls return an `error`; `none` models the nil
error (success). -/
def unauthorizedErr : Option String := some "403 unauthorized"

/-- Modelled from the spec §4.5: error unless every channel is visible. -/
def UserModel.authorizeAllChannels (u : UserModel) (chans : List String) :
    Option String :=
  if chans.all u.canSeeChannel then none else unauthorizedErr

/-- `authorizeAnyChannel`, modelled on the behaviour the excerpted
TestUserAccess pins down (part_000 lines 156-226): with a non-empty input,
success iff some channel is visible; with the empty input, success iff the
user holds the wildcard `*` (line 225 asserts the wildcard user is
authorized on the empty set). -/
def UserModel.authorizeAnyChannel (u : UserModel) (chans : List String) :
    Option String :=
  if chans.isEmpty then
    if (lookupKey u.channels "*").isSome then none else unauthorizedErr
  else
    if chans.any u.canSeeChannel then none else unauthorizedErr

/-- Modelled from the spec §4.5: a requested `*` expands to the user's full
channel set; otherwise the set passes through. -/
def UserModel.expandWildCardChannel (u : UserModel) (chans : List String) :
    List String :=
  if chans.contains "*" then keysOf u.channels else chans

/-- Modelled from the spec: `authenticate` — with no stored hash only the
empty password matches; otherwise the bcrypt compare must succeed. -/
def UserModel.authenticate (u : UserModel) (password : String) : Bool :=
  match u.passwordHash with
  | none => password == ""
  | some h => h == bcryptHashModel password

/-- The model reproduces every `AuthorizeAnyChannel` assertion of the
excerpted TestUserAccess (part_000 lines 156-226), including line 225: the
wildcard user is authorized on the empty channel set. -/
theorem userAccess_test_assertions :
    ((newUser "foo" "password" []).authorizeAnyChannel ["x", "y"] ≠ none) ∧
    ((newUser "foo" "password" []).authorizeAnyChannel [] ≠ none) ∧
    (((newUser "foo" "password" []).setChannels [("x", 1)]).authorizeAnyChannel
        ["x", "y"] = none) ∧
    (((newUser "foo" "password" []).setChannels [("x", 1)]).authorizeAnyChannel
        ["y"] ≠ none) ∧
    (((newUser "foo" "password" []).setChannels [("x", 1)]).authorizeAnyChannel
        [] ≠ none) ∧
    (((newUser "foo" "password" []).setChannels [("*", 1), ("q", 1)]).authorizeAnyChannel
        ["x"] = none) ∧
    (((newUser "foo" "password" []).setChannels [("*", 1), ("q", 1)]).authorizeAnyChannel
        ["*"] = none) ∧
    (((newUser "foo" "password" []).setChannels [("*", 1), ("q", 1)]).authorizeAnyChannel
        [] = none) := by
  decide

/-- C2 counterexample: a user holding the wildcard `*` gets **no** error from
`authorizeAnyChannel` on the empty channel set (exactly what TestUserAccess
line 225 asserts), contradicting the claim that the empty set is an error
for every user. -/
theorem authorizeAnyChannel_empty_wildcard_ok :
    ((newUser "foo" "password" []).setChannels [("*", 1), ("q", 1)]).authorizeAnyChannel []
      = none := by
  decide

/-- C2 (amended): `authorizeAnyChannel` on the empty channel set returns an
error for every user that does not hold the wildcard `*`, and succeeds for
every user that does. -/
theorem authorizeAnyChannel_empty (u : UserModel) :
    (lookupKey u.channels "*" = none →
        u.authorizeAnyChannel [] = unauthorizedErr) ∧
    ((lookupKey u.channels "*").isSome →
        u.authorizeAnyChannel [] = none) := by
  constructor
  · intro h
    simp [UserModel.authorizeAnyChannel, h]
  · intro h
    simp [UserModel.authorizeAnyChannel, h]

/-- Witness for `authorizeAnyChannel_empty`: a user with only `!` errors on
the empty set; the wildcard user succeeds. -/
theorem authorizeAnyChannel_empty_witness :
    (newUser "foo" "password" []).authorizeAnyChannel [] = unauthorizedErr ∧
    ((newUser "foo" "password" []).setChannels [("*", 1)]).authorizeAnyChannel [] = none :=
  ⟨(authorizeAnyChannel_empty (newUser "foo" "password" [])).1 (by decide),
   (authorizeAnyChannel_empty
      ((newUser "foo" "password" []).setChannels [("*", 1)])).2 (by decide)⟩

theorem bcryptHashModel_inj {p q : String} (h : bcryptHashModel p = bcryptHashModel q) :
    p = q := by
  have hd := congrArg String.data h
  simp only [bcryptHashModel, String.data_append] at hd
  exact String.ext (List.append_cancel_left hd)

/-- C6: the guest user (empty name, empty password) authenticates with the
empty password and only the empty password; a user created with a non-empty
password `p` authenticates with `p` and with no other password, the empty
one included. -/
theorem authenticate_passwords :
    ((newUser "" "" []).authenticate "" = true) ∧
    (∀ pw : String, pw ≠ "" → (newUser "" "" []).authenticate pw = false) ∧
    (∀ (name p : String) (chans : List String), p ≠ "" →
      ((newUser name p chans).authenticate p = true ∧
       ∀ q : String, q ≠ p → (newUser name p chans).authenticate q = false)) := by
  refine ⟨by decide, ?_, ?_⟩
  · intro pw hpw
    simp [newUser, UserModel.setPassword, UserModel.authenticate, hpw]
  · intro name p chans hp
    constructor
    · simp [newUser, UserModel.setPassword, UserModel.authenticate, hp]
    · intro q hq
      have hneq : bcryptHashModel p ≠ bcryptHashModel q :=
        fun hcontra => hq (bcryptHashModel_inj hcontra).symm
      simp [newUser, UserModel.setPassword, UserModel.authenticate, hp, hneq]

/-- Witness for `authenticate_passwords`, mirroring TestUserPasswords: the
guest rejects "123456"; the user `me`/`letmein` accepts `letmein` and rejects
`password` and the empty password. -/
theorem authenticate_passwords_witness :
    (newUser "" "" []).authenticate "123456" = false ∧
    (newUser "me" "letmein" []).authenticate "letmein" = true ∧
    (newUser "me" "letmein" []).authenticate "password" = false ∧
    (newUser "me" "letmein" []).authenticate "" = false :=
  ⟨authenticate_passwords.2.1 "123456" (by decide),
   (authenticate_passwords.2.2 "me" "letmein" [] (by decide)).1,
   (authenticate_passwords.2.2 "me" "letmein" [] (by decide)).2 "password" (by decide),
   (authenticate_passwords.2.2 "me" "letmein" [] (by decide)).2 "" (by decide)⟩

/-! ### auth: principal serialization (modelled from the spec §6 persisted
state; the `userImpl` JSON codec is not part of the excerpt, only
TestSerializeUser). -/

@[simp] theorem encodeTimedSet_isNull (ts : TimedSet) :
    (encodeTimedSet ts).isNull = false := rfl

/-- JSON form of a user principal: name, email, password hash, explicit
(admin) channels and the computed channel set. -/
def marshalUser (u : UserModel) : JVal :=
  .obj [("name", .str u.name), ("email", .str u.email),
        ("passwordhash_", match u.passwordHash with | none => .null | some h => .str h),
        ("admin_channels", encodeTimedSet u.explicitChannels),
        ("all_channels", encodeTimedSet u.channels)]

def unmarshalUser : JVal → Except String UserModel
  | .obj fs => do
      let name ← decField fs "name" decStr ""
      let email ← decField fs "email" decStr ""
      let hash ← match lookupKey fs "passwordhash_" with
        | none => .ok none
        | some .null => .ok none
        | some (.str h) => .ok (some h)
        | some _ => .error "expected passwordhash_"
      let ec ← decField fs "admin_channels" decodeTimedSet []
      let ch ← decField fs "all_channels" decodeTimedSet []
      .ok { name := name, email := email, passwordHash := hash,
            explicitChannels := ec, channels := ch }
  | _ => .error "expected user object"

@[simp] theorem unmarshalUser_marshal (u : UserModel) :
    unmarshalUser (marshalUser u) = .ok u := by
  obtain ⟨n, e, h, ec, ch⟩ := u
  rcases h with _ | h <;>
    simp [marshalUser, unmarshalUser, decField, decStr]

/-- C7: unmarshalling the marshalled bytes restores the original value up to
field order — a document's body properties come back at top level with the
syncData restored from `_sync` (given that the document has an ID and its
body does not use the reserved `_sync` key), and a user's name, email,
explicit channels and ability to authenticate with the original password are
all preserved. -/
theorem marshal_unmarshal_roundtrip (doc : Document) (u : UserModel)
    (hid : doc.id ≠ "") (hbody : "_sync" ∉ keysOf doc.body) :
    unmarshalDocument doc.id (some (marshalDocument doc)) = .ok doc ∧
    unmarshalUser (marshalUser u) = .ok u ∧
    (∀ r : UserModel, unmarshalUser (marshalUser u) = .ok r →
      r.name = u.name ∧ r.email = u.email ∧
      r.explicitChannels = u.explicitChannels ∧
      ∀ pw : String, r.authenticate pw = u.authenticate pw) := by
  refine ⟨unmarshal_marshal_document doc hid hbody, unmarshalUser_marshal u, ?_⟩
  intro r hr
  rw [unmarshalUser_marshal u] at hr
  cases hr
  exact ⟨rfl, rfl, rfl, fun _ => rfl⟩

/-- A concrete document for the round-trip witness. -/
def docExample : Document :=
  { sync := { currentRev := "1-abc", deleted := false, sequence := 2,
              history := [("1-abc", ⟨none, false, none, ["public"], []⟩)],
              channels := [("public", none), ("old", some ⟨1, "1-abc", false⟩)],
              access := [("alice", [("ch1", 2)])], roleAccess := [] },
    body := [("key", .str "value"), ("n", .num 7)], id := "doc1" }

/-- Witness for `marshal_unmarshal_roundtrip` on a concrete document and the
TestSerializeUser user. -/
theorem marshal_unmarshal_roundtrip_witness :
    unmarshalDocument "doc1" (some (marshalDocument docExample)) = .ok docExample ∧
    unmarshalUser (marshalUser
        ((newUser "me" "letmein" ["me", "public"]).setEmail "foo@example.com"))
      = .ok ((newUser "me" "letmein" ["me", "public"]).setEmail "foo@example.com") :=
  ⟨(marshal_unmarshal_roundtrip docExample
      ((newUser "me" "letmein" ["me", "public"]).setEmail "foo@example.com")
      (by decide) (by decide)).1,
   (marshal_unmarshal_roundtrip docExample
      ((newUser "me" "letmein" ["me", "public"]).setEmail "foo@example.com")
      (by decide) (by decide)).2.1⟩

/-! ### db: the LRU revision cache

Modelled from the spec §4.4 — only the cache's test file is in the excerpt.
The per-entry delta pointer of the spec's immutable-pointer design is an
index into an append-only delta heap carried by the cache, so "swap the
pointer, never mutate the referent" is expressible: `updateDelta` allocates a
fresh index and never writes an existing one. -/

/-- `RevisionDelta` as the delta test inspects it. -/
structure RevisionDelta : Type where
  toRevID : String
  deltaBytes : String
deriving DecidableEq, Repr

/-- A cached revision snapshot: body, revID, sequence (for the put-replace
rule), and the delta pointer. -/
structure DocSnapshot : Type where
  body : List (String × JVal)
  revID : String
  seq : Nat
  delta : Option Nat

/-- Cache keys are (docID, revID). -/
abbrev CacheKey := String × String

/-- The LRU revision cache: entries ordered most-recently-used first, hit and
miss counters, and the append-only delta heap. -/
structure LRUCache : Type where
  capacity : Nat
  entries : List (CacheKey × DocSnapshot)
  hits : Nat
  misses : Nat
  deltaHeap : List RevisionDelta

/-- The backing store consulted on cache misses. -/
abbrev BackingStore := String → String → Option DocSnapshot

/-- `NewLRURevisionCache(capacity, ...)`. -/
def emptyCache (n : Nat) : LRUCache :=
  { capacity := n, entries := [], hits := 0, misses := 0, deltaHeap := [] }

/-- `put(docID, snapshot)`: insert at the most-recent position; an existing
entry's snapshot is replaced only when the new one is newer (higher
sequence) or the existing slot is empty; a fresh insert evicts from the
least-recent end down to capacity. -/
def LRUCache.put (c : LRUCache) (docID : String) (snap : DocSnapshot) : LRUCache :=
  let k : CacheKey := (docID, snap.revID)
  match lookupKey c.entries k with
  | some old =>
      let keep := if old.seq < snap.seq ∨ old.body.isEmpty then snap else old
      { c with entries := (k, keep) :: eraseKey c.entries k }
  | none => { c with entries := ((k, snap) :: c.entries).take c.capacity }

/-- `get(docID, revID, copyPolicy)`: a hit moves the entry to the front and
counts a hit; a miss counts a miss and loads from the backing store, caching
a successful load (failed loads are not cached). -/
def LRUCache.get (c : LRUCache) (bs : BackingStore) (docID revID : String) :
    Option DocSnapshot × LRUCache :=
  let k : CacheKey := (docID, revID)
  match lookupKey c.entries k with
  | some snap =>
      (some snap,
        { c with entries := (k, snap) :: eraseKey c.entries k, hits := c.hits + 1 })
  | none =>
      match bs docID revID with
      | some snap =>
          (some snap,
            { c with entries := ((k, snap) :: c.entries).take c.capacity,
                     misses := c.misses + 1 })
      | none => (none, { c with misses := c.misses + 1 })

/-- `peek(docID, revID, copyPolicy)`: no load and no miss-counter increment;
an absent key leaves the cache untouched. -/
def LRUCache.peek (c : LRUCache) (docID revID : String) :
    Option DocSnapshot × LRUCache :=
  let k : CacheKey := (docID, revID)
  match lookupKey c.entries k with
  | some snap =>
      (some snap,
        { c with entries := (k, snap) :: eraseKey c.entries k, hits := c.hits + 1 })
  | none => (none, c)

/-- `updateDelta(docID, revID, delta)`: allocate a fresh delta record on the
heap and swap the entry's pointer to it; absent keys are a no-op.  Existing
heap cells are never written. -/
def LRUCache.updateDelta (c : LRUCache) (docID revID : String) (d : RevisionDelta) :
    LRUCache :=
  let k : CacheKey := (docID, revID)
  match lookupKey c.entries k with
  | some snap =>
      { c with deltaHeap := c.deltaHeap ++ [d],
               entries := (k, { snap with delta := some c.deltaHeap.length })
                 :: eraseKey c.entries k }
  | none => c

/-- Dereference a delta pointer. -/
def LRUCache.derefDelta (c : LRUCache) (a : Nat) : Option RevisionDelta :=
  c.deltaHeap[a]?

theorem LRUCache.get_hit (c : LRUCache) (bs : BackingStore) (docID revID : String)
    (snap : DocSnapshot) (h : lookupKey c.entries (docID, revID) = some snap) :
    c.get bs docID revID =
      (some snap,
        ⟨c.capacity, ((docID, revID), snap) :: eraseKey c.entries (docID, revID),
         c.hits + 1, c.misses, c.deltaHeap⟩) := by
  simp [LRUCache.get, h]

theorem LRUCache.updateDelta_hit (c : LRUCache) (docID revID : String)
    (d : RevisionDelta) (snap : DocSnapshot)
    (h : lookupKey c.entries (docID, revID) = some snap) :
    c.updateDelta docID revID d =
      ⟨c.capacity,
       ((docID, revID), ⟨snap.body, snap.revID, snap.seq, some c.deltaHeap.length⟩)
         :: eraseKey c.entries (docID, revID),
       c.hits, c.misses, c.deltaHeap ++ [d]⟩ := by
  simp [LRUCache.updateDelta, h]

/-- C3: for a cached (docID, revID) entry, an `updateDelta` after a `get`
does not mutate the delta snapshot the earlier `get` observed — the heap
record its pointer references (ToRevID and DeltaBytes) is unchanged — while
a subsequent `get` observes the newly installed delta. -/
theorem updateDelta_immutable (c : LRUCache) (bs : BackingStore)
    (docID revID : String) (snap : DocSnapshot) (a : Nat) (δ₁ δ₂ : RevisionDelta)
    (hcached : lookupKey c.entries (docID, revID) = some snap)
    (_hptr : snap.delta = some a)
    (hderef : c.derefDelta a = some δ₁) :
    (c.get bs docID revID).1 = some snap ∧
    (((c.get bs docID revID).2).updateDelta docID revID δ₂).derefDelta a = some δ₁ ∧
    ∃ (snap₂ : DocSnapshot) (a₂ : Nat),
      ((((c.get bs docID revID).2).updateDelta docID revID δ₂).get bs docID revID).1
        = some snap₂ ∧
      snap₂.delta = some a₂ ∧
      (((((c.get bs docID revID).2).updateDelta docID revID δ₂).get bs
          docID revID).2).derefDelta a₂ = some δ₂ := by
  have ha : a < c.deltaHeap.length := by
    by_contra hcon
    push_neg at hcon
    rw [LRUCache.derefDelta, List.getElem?_eq_none hcon] at hderef
    exact Option.noConfusion hderef
  rw [LRUCache.get_hit c bs docID revID snap hcached]
  rw [LRUCache.updateDelta_hit _ docID revID δ₂ snap (by simp)]
  refine ⟨rfl, ?_, ?_⟩
  · show (c.deltaHeap ++ [δ₂])[a]? = some δ₁
    rw [List.getElem?_append_left ha]
    exact hderef
  · rw [LRUCache.get_hit _ bs docID revID
      ⟨snap.body, snap.revID, snap.seq, some c.deltaHeap.length⟩ (by simp)]
    refine ⟨⟨snap.body, snap.revID, snap.seq, some c.deltaHeap.length⟩,
      c.deltaHeap.length, rfl, rfl, ?_⟩
    show (c.deltaHeap ++ [δ₂])[c.deltaHeap.length]? = some δ₂
    exact List.getElem?_concat_length _ _

/-- The cache state of TestRevisionImmutableDelta after the first
`UpdateDelta`: one entry whose delta pointer references the first heap cell
`{rev2, "delta"}`. -/
def cacheExample : LRUCache :=
  ⟨10, [(("doc1", "1-abc"), ⟨[], "1-abc", 1, some 0⟩)], 0, 0, [⟨"rev2", "delta"⟩]⟩

/-- A backing store with no documents. -/
def noopStore : BackingStore := fun _ _ => none

/-- Witness for `updateDelta_immutable`, mirroring TestRevisionImmutableDelta:
after installing `{rev3, "modified delta"}`, the previously observed
`{rev2, "delta"}` is unchanged and a fresh get sees the new delta. -/
theorem updateDelta_immutable_witness :
    (cacheExample.get noopStore "doc1" "1-abc").1 = some ⟨[], "1-abc", 1, some 0⟩ ∧
    (((cacheExample.get noopStore "doc1" "1-abc").2).updateDelta "doc1" "1-abc"
        ⟨"rev3", "modified delta"⟩).derefDelta 0 = some ⟨"rev2", "delta"⟩ ∧
    ∃ (snap₂ : DocSnapshot) (a₂ : Nat),
      ((((cacheExample.get noopStore "doc1" "1-abc").2).updateDelta "doc1" "1-abc"
          ⟨"rev3", "modified delta"⟩).get noopStore "doc1" "1-abc").1 = some snap₂ ∧
      snap₂.delta = some a₂ ∧
      (((((cacheExample.get noopStore "doc1" "1-abc").2).updateDelta "doc1" "1-abc"
          ⟨"rev3", "modified delta"⟩).get noopStore "doc1" "1-abc").2).derefDelta a₂
        = some ⟨"rev3", "modified delta"⟩ :=
  updateDelta_immutable cacheExample noopStore "doc1" "1-abc" ⟨[], "1-abc", 1, some 0⟩ 0
    ⟨"rev2", "delta"⟩ ⟨"rev3", "modified delta"⟩ rfl rfl rfl

/-! ### C4: LRU capacity invariant and eviction order -/

/-- One cache operation, as exercised by the eviction test. -/
inductive CacheOp : Type where
  | putOp (docID : String) (snap : DocSnapshot) : CacheOp
  | getOp (docID revID : String) : CacheOp
  | peekOp (docID revID : String) : CacheOp
  | updateDeltaOp (docID revID : String) (d : RevisionDelta) : CacheOp

/-- Apply one operation (discarding returned snapshots). -/
def applyOp (bs : BackingStore) (c : LRUCache) : CacheOp → LRUCache
  | .putOp d s => c.put d s
  | .getOp d r => (c.get bs d r).2
  | .peekOp d r => (c.peek d r).2
  | .updateDeltaOp d r δ => c.updateDelta d r δ

/-- Run a sequence of operations. -/
def runOps (bs : BackingStore) (c : LRUCache) (ops : List CacheOp) : LRUCache :=
  ops.foldl (applyOp bs) c

theorem eraseKey_length_of_lookup {κ α : Type} [DecidableEq κ]
    (l : List (κ × α)) (k : κ) (v : α) (h : lookupKey l k = some v) :
    (eraseKey l k).length + 1 = l.length := by
  induction l with
  | nil => simp at h
  | cons p rest ih =>
      obtain ⟨k', v'⟩ := p
      by_cases hk : k' = k
      · simp [hk]
      · simp only [lookupKey_cons, if_neg hk] at h
        simp [hk, ← ih h]

theorem applyOp_capacity (bs : BackingStore) (c : LRUCache) (op : CacheOp) :
    (applyOp bs c op).capacity = c.capacity := by
  cases op with
  | putOp d s =>
      simp only [applyOp, LRUCache.put]
      cases h : lookupKey c.entries (d, s.revID) <;> simp
  | getOp d r =>
      simp only [applyOp, LRUCache.get]
      cases h : lookupKey c.entries (d, r)
      · cases hb : bs d r <;> simp
      · simp
  | peekOp d r =>
      simp only [applyOp, LRUCache.peek]
      cases h : lookupKey c.entries (d, r) <;> simp
  | updateDeltaOp d r δ =>
      simp only [applyOp, LRUCache.updateDelta]
      cases h : lookupKey c.entries (d, r) <;> simp

theorem applyOp_length (bs : BackingStore) (c : LRUCache) (op : CacheOp)
    (h : c.entries.length ≤ c.capacity) :
    (applyOp bs c op).entries.length ≤ c.capacity := by
  cases op with
  | putOp d s =>
      simp only [applyOp, LRUCache.put]
      cases hl : lookupKey c.entries (d, s.revID) with
      | none => simp [List.length_take]
      | some old =>
          have := eraseKey_length_of_lookup c.entries (d, s.revID) old hl
          simp
          omega
  | getOp d r =>
      simp only [applyOp, LRUCache.get]
      cases hl : lookupKey c.entries (d, r) with
      | none =>
          cases hb : bs d r <;> simp [List.length_take, h]
      | some snap =>
          have := eraseKey_length_of_lookup c.entries (d, r) snap hl
          simp
          omega
  | peekOp d r =>
      simp only [applyOp, LRUCache.peek]
      cases hl : lookupKey c.entries (d, r) with
      | none => simpa using h
      | some snap =>
          have := eraseKey_length_of_lookup c.entries (d, r) snap hl
          simp
          omega
  | updateDeltaOp d r δ =>
      simp only [applyOp, LRUCache.updateDelta]
      cases hl : lookupKey c.entries (d, r) with
      | none => simpa using h
      | some snap =>
          have := eraseKey_length_of_lookup c.entries (d, r) snap hl
          simp
          omega

theorem runOps_length_le (bs : BackingStore) (ops : List CacheOp) :
    ∀ (c : LRUCache), c.entries.length ≤ c.capacity →
      (runOps bs c ops).entries.length ≤ (runOps bs c ops).capacity := by
  induction ops with
  | nil => intro c h; simpa [runOps] using h
  | cons op rest ih =>
      intro c h
      have h1 : (applyOp bs c op).entries.length ≤ (applyOp bs c op).capacity := by
        rw [applyOp_capacity]
        exact applyOp_length bs c op h
      simpa [runOps] using ih (applyOp bs c op) h1

/-- Run a sequence of `Put`s. -/
def runPuts (c : LRUCache) (ps : List (String × DocSnapshot)) : LRUCache :=
  ps.foldl (fun c p => c.put p.1 p.2) c

theorem take_append_take {α : Type} (xs ys : List α) (n : Nat) :
    (xs ++ ys.take n).take n = (xs ++ ys).take n := by
  rw [List.take_append_eq_append_take, List.take_append_eq_append_take, List.take_take,
    min_eq_left (Nat.sub_le n xs.length)]

theorem keysOf_take {κ α : Type} (l : List (κ × α)) (n : Nat) :
    keysOf (l.take n) = (keysOf l).take n := by
  simp [keysOf, List.map_take]

/-- Folding fresh-keyed `Put`s: the entry list is the reversed insertion
order cut to capacity. -/
theorem runPuts_entries :
    ∀ (ps : List (String × DocSnapshot)) (c : LRUCache),
      c.entries.length ≤ c.capacity →
      (∀ p ∈ ps, ((p.1 : String), p.2.revID) ∉ keysOf c.entries) →
      (ps.map fun p => ((p.1 : String), p.2.revID)).Nodup →
      (runPuts c ps).entries
        = ((ps.map fun p => (((p.1 : String), p.2.revID), p.2)).reverse
            ++ c.entries).take c.capacity ∧
      (runPuts c ps).capacity = c.capacity := by
  intro ps
  induction ps with
  | nil =>
      intro c hlen _ _
      simp [runPuts, List.take_of_length_le hlen]
  | cons p rest ih =>
      intro c hlen hfresh hnd
      obtain ⟨d, s⟩ := p
      have hk : lookupKey c.entries (d, s.revID) = none :=
        lookupKey_eq_none _ _ (hfresh (d, s) (List.mem_cons_self _ _))
      have hput : c.put d s =
          ⟨c.capacity, (((d, s.revID), s) :: c.entries).take c.capacity,
           c.hits, c.misses, c.deltaHeap⟩ := by
        simp [LRUCache.put, hk]
      have hndk : ((d, s.revID) ∉ rest.map fun p => ((p.1 : String), p.2.revID)) ∧
          (rest.map fun p => ((p.1 : String), p.2.revID)).Nodup := by
        simpa using hnd
      have hfresh' : ∀ q ∈ rest,
          ((q.1 : String), q.2.revID) ∉ keysOf (c.put d s).entries := by
        intro q hq hmem
        rw [hput] at hmem
        simp only [keysOf_take] at hmem
        have hmem' : ((q.1 : String), q.2.revID)
            ∈ keysOf (((d, s.revID), s) :: c.entries) := List.take_subset _ _ hmem
        simp only [keysOf, List.map_cons, List.mem_cons] at hmem'
        rcases hmem' with h | h
        · exact hndk.1 (h ▸ List.mem_map_of_mem _ hq)
        · exact hfresh q (List.mem_cons_of_mem _ hq) h
      have hlen' : (c.put d s).entries.length ≤ (c.put d s).capacity := by
        rw [hput]
        simp
      obtain ⟨hent, hcap⟩ := ih (c.put d s) hlen' hfresh' hndk.2
      have hrun : runPuts c ((d, s) :: rest) = runPuts (c.put d s) rest := rfl
      rw [hrun, hent, hcap, hput]
      constructor
      · show ((rest.map fun p => (((p.1 : String), p.2.revID), p.2)).reverse
            ++ (((d, s.revID), s) :: c.entries).take c.capacity).take c.capacity = _
        rw [take_append_take]
        simp
      · rfl

theorem runOps_capacity (bs : BackingStore) (ops : List CacheOp) :
    ∀ c : LRUCache, (runOps bs c ops).capacity = c.capacity := by
  induction ops with
  | nil => intro c; rfl
  | cons op rest ih =>
      intro c
      show (runOps bs (applyOp bs c op) rest).capacity = _
      rw [ih, applyOp_capacity]

/-- C4: (1) under capacity `N` the entry count never exceeds `N` over any
operation sequence; (2) after `Put`ting `M` distinct (docID, revID) keys into
a fresh cache, the `M − N` least-recently-touched keys are absent — `Peek`
returns not-present and leaves the cache (miss counter included) untouched —
while each of the `N` most-recently-touched keys is still retrievable by
`Get` with its snapshot. -/
theorem lru_cache_bounded_eviction (N : Nat) (bs : BackingStore) :
    (∀ ops : List CacheOp, (runOps bs (emptyCache N) ops).entries.length ≤ N) ∧
    (∀ ps : List (String × DocSnapshot),
        (ps.map fun p => ((p.1 : String), p.2.revID)).Nodup →
        ((∀ p ∈ ps.take (ps.length - N),
            (runPuts (emptyCache N) ps).peek p.1 p.2.revID
              = (none, runPuts (emptyCache N) ps)) ∧
         (∀ p ∈ ps.drop (ps.length - N),
            ((runPuts (emptyCache N) ps).get bs p.1 p.2.revID).1 = some p.2))) := by
  constructor
  · intro ops
    have h := runOps_length_le bs ops (emptyCache N) (by simp [emptyCache])
    rw [runOps_capacity bs ops (emptyCache N)] at h
    exact h
  · intro ps hnd
    obtain ⟨hent, _⟩ := runPuts_entries ps (emptyCache N)
      (by simp [emptyCache]) (by simp [emptyCache, keysOf]) hnd
    have hentN : (runPuts (emptyCache N) ps).entries
        = ((ps.map fun p => (((p.1 : String), p.2.revID), p.2)).drop
            (ps.length - N)).reverse := by
      rw [hent]
      show ((ps.map fun (p : String × DocSnapshot) => ((p.1, p.2.revID), p.2)).reverse
          ++ []).take (emptyCache N).capacity = _
      rw [List.append_nil, List.take_reverse, List.length_map]
      rfl
    have hkeys : keysOf (runPuts (emptyCache N) ps).entries
        = ((ps.map fun q => ((q.1 : String), q.2.revID)).drop (ps.length - N)).reverse := by
      rw [hentN]
      simp [keysOf, List.map_reverse, ← List.map_drop, List.map_map, Function.comp]
    constructor
    · intro p hp
      have hnotmem : ((p.1 : String), p.2.revID)
          ∉ keysOf (runPuts (emptyCache N) ps).entries := by
        rw [hkeys, List.mem_reverse]
        have hsplit : ((ps.map fun q => ((q.1 : String), q.2.revID)).take (ps.length - N)
            ++ (ps.map fun q => ((q.1 : String), q.2.revID)).drop (ps.length - N)).Nodup := by
          rw [List.take_append_drop]
          exact hnd
        have hdisj := (List.nodup_append.mp hsplit).2.2
        intro hmem
        exact hdisj (by
          rw [← List.map_take]
          exact List.mem_map_of_mem _ hp) hmem
      have hlk := lookupKey_eq_none _ _ hnotmem
      simp [LRUCache.peek, hlk]
    · intro p hp
      have hndE : keysNodup (runPuts (emptyCache N) ps).entries := by
        rw [keysNodup, hkeys, List.nodup_reverse]
        exact hnd.sublist (List.drop_sublist _ _)
      have hmem : (((p.1 : String), p.2.revID), p.2)
          ∈ (runPuts (emptyCache N) ps).entries := by
        rw [hentN, List.mem_reverse, ← List.map_drop]
        exact List.mem_map_of_mem _ hp
      have hlk := lookupKey_eq_some_of_mem _ _ _ hndE hmem
      simp [LRUCache.get, hlk]

/-- The 13 distinct docIDs (revID "1-abc") the eviction test inserts into a
capacity-10 cache. -/
def evictionPuts : List (String × DocSnapshot) :=
  ["0", "1", "2", "3", "4", "5", "6", "7", "8", "9", "10", "11", "12"].map
    fun id => (id, ⟨[("_id", JVal.str id)], "1-abc", 1, none⟩)

/-- Witness for `lru_cache_bounded_eviction`, mirroring
TestLRURevisionCacheEviction: after 13 puts into a capacity-10 cache, `"0"`
peeks as not-present with the cache untouched, while `"3"` and `"12"` are
still retrievable with their snapshots. -/
theorem lru_cache_bounded_eviction_witness :
    (runOps noopStore (emptyCache 10)
        (evictionPuts.map fun p => CacheOp.putOp p.1 p.2)).entries.length ≤ 10 ∧
    (runPuts (emptyCache 10) evictionPuts).peek "0" "1-abc"
      = (none, runPuts (emptyCache 10) evictionPuts) ∧
    ((runPuts (emptyCache 10) evictionPuts).get noopStore "3" "1-abc").1
      = some ⟨[("_id", JVal.str "3")], "1-abc", 1, none⟩ ∧
    ((runPuts (emptyCache 10) evictionPuts).get noopStore "12" "1-abc").1
      = some ⟨[("_id", JVal.str "12")], "1-abc", 1, none⟩ := by
  have h := lru_cache_bounded_eviction 10 noopStore
  have hnd : (evictionPuts.map fun p => ((p.1 : String), p.2.revID)).Nodup := by
    decide
  obtain ⟨habs, hpres⟩ := h.2 evictionPuts hnd
  refine ⟨h.1 _, ?_, ?_, ?_⟩
  · exact habs ("0", ⟨[("_id", JVal.str "0")], "1-abc", 1, none⟩)
      (by simp [evictionPuts])
  · exact hpres ("3", ⟨[("_id", JVal.str "3")], "1-abc", 1, none⟩)
      (by simp [evictionPuts])
  · exact hpres ("12", ⟨[("_id", JVal.str "12")], "1-abc", 1, none⟩)
      (by simp [evictionPuts])

/-! ### channels: the sync-function `expiry` intrinsic

Modelled from the spec §4.2 step 4 and §4.3 — the evaluator and its expiry
reflection helper are not part of the excerpt, only TestExpiryFunction.
Valid values: non-negative integers up to the uint32 maximum, numeric
strings with the same validation, and RFC 3339 date strings whose UNIX epoch
seconds are in range (pre-epoch dates are invalid).  `null`/`undefined` (no
argument) set nothing; every other value is invalid.  Invalid values log a
warning and leave the result expiry unset; the evaluation itself still
succeeds. -/

def uint32Max : Nat := 4294967295

def digitsToNatAux : List Char → Nat → Option Nat
  | [], acc => some acc
  | c :: cs, acc =>
      if c.isDigit then digitsToNatAux cs (acc * 10 + (c.toNat - 48)) else none

def digitsToNat (cs : List Char) : Option Nat :=
  if cs.isEmpty then none else digitsToNatAux cs 0

/-- Decimal integer string (optional sign), full-string match. -/
def parseDecInt (s : String) : Option Int :=
  match s.toList with
  | '-' :: cs => (digitsToNat cs).map fun n => -(n : Int)
  | '+' :: cs => (digitsToNat cs).map fun n => (n : Int)
  | cs => (digitsToNat cs).map fun n => (n : Int)

/-- Read exactly two digits. -/
def read2 : List Char → Option (Nat × List Char)
  | a :: b :: rest =>
      if a.isDigit ∧ b.isDigit then
        some ((a.toNat - 48) * 10 + (b.toNat - 48), rest)
      else none
  | _ => none

/-- Read exactly four digits. -/
def read4 : List Char → Option (Nat × List Char)
  | a :: b :: c :: d :: rest =>
      if a.isDigit ∧ b.isDigit ∧ c.isDigit ∧ d.isDigit then
        some ((a.toNat - 48) * 1000 + (b.toNat - 48) * 100 +
          (c.toNat - 48) * 10 + (d.toNat - 48), rest)
      else none
  | _ => none

def expectChar (c : Char) : List Char → Option (List Char)
  | x :: rest => if x = c then some rest else none
  | [] => none

def isLeapYear (y : Nat) : Bool :=
  (y % 4 = 0 && !(y % 100 = 0)) || y % 400 = 0

def daysInMonth (y m : Nat) : Nat :=
  if m = 2 then (if isLeapYear y then 29 else 28)
  else if m = 4 ∨ m = 6 ∨ m = 9 ∨ m = 11 then 30
  else 31

/-- Days since 1970-01-01 of a proleptic-Gregorian civil date (era-based
algorithm). -/
def daysFromCivil (y m d : Nat) : Int :=
  let yAdj := if m ≤ 2 then y - 1 else y
  let era := yAdj / 400
  let yoe := yAdj % 400
  let mp := if m > 2 then m - 3 else m + 9
  let doy := (153 * mp + 2) / 5 + d - 1
  let doe := yoe * 365 + yoe / 4 - yoe / 100 + doy
  (era * 146097 + doe : Int) - 719468

/-- Optional fractional seconds: a `.` must be followed by at least one
digit. -/
def skipFraction : List Char → Option (List Char)
  | '.' :: rest =>
      if (rest.takeWhile Char.isDigit).isEmpty then none
      else some (rest.dropWhile Char.isDigit)
  | cs => some cs

/-- Time-zone suffix: `Z` or `±HH:MM`; returns the offset in seconds. -/
def parseOffset : List Char → Option Int
  | ['Z'] => some 0
  | c :: rest =>
      if c = '+' ∨ c = '-' then
        match read2 rest with
        | some (oh, rest₂) =>
            match expectChar ':' rest₂ with
            | some rest₃ =>
                match read2 rest₃ with
                | some (om, []) =>
                    if oh ≤ 23 ∧ om ≤ 59 then
                      some ((if c = '-' then -1 else 1) * ((oh * 3600 + om * 60 : Nat) : Int))
                    else none
                | _ => none
            | none => none
        | none => none
      else none
  | _ => none

/-- RFC 3339 date-time string to UNIX epoch seconds. -/
def parseRFC3339 (s : String) : Option Int := do
  let cs := s.toList
  let (y, cs) ← read4 cs
  let cs ← expectChar '-' cs
  let (mo, cs) ← read2 cs
  let cs ← expectChar '-' cs
  let (d, cs) ← read2 cs
  let cs ← expectChar 'T' cs
  let (h, cs) ← read2 cs
  let cs ← expectChar ':' cs
  let (mi, cs) ← read2 cs
  let cs ← expectChar ':' cs
  let (sec, cs) ← read2 cs
  let cs ← skipFraction cs
  let off ← parseOffset cs
  if 1 ≤ mo ∧ mo ≤ 12 ∧ 1 ≤ d ∧ d ≤ daysInMonth y mo ∧ h ≤ 23 ∧ mi ≤ 59 ∧ sec ≤ 59
  then
    some (daysFromCivil y mo d * 86400 + ((h * 3600 + mi * 60 + sec : Nat) : Int) - off)
  else none

/-- The plain values the evaluator can hand to the `expiry` intrinsic. -/
inductive SyncValue : Type where
  | num (n : Int) : SyncValue
  | str (s : String) : SyncValue
  | arr (xs : List SyncValue) : SyncValue
  | nullVal : SyncValue
  | undef : SyncValue

/-- In-range check: values below 0 or above the uint32 maximum are invalid. -/
def validateUint32Expiry (n : Int) : Except String (Option Nat) :=
  if 0 ≤ n ∧ n ≤ (uint32Max : Int) then .ok (some n.toNat)
  else .error "expiry value is not within range"

/-- Expiry reflection: numbers are range-checked, strings are tried as
numerics then as RFC 3339 dates, `null`/`undefined` carry no expiry, and
anything else is an unrecognized format. -/
def reflectExpiry : SyncValue → Except String (Option Nat)
  | .num n => validateUint32Expiry n
  | .str s =>
      match parseDecInt s with
      | some n => validateUint32Expiry n
      | none =>
          match parseRFC3339 s with
          | some epoch => validateUint32Expiry epoch
          | none => .error "unrecognized expiry format"
  | .nullVal => .ok none
  | .undef => .ok none
  | .arr _ => .error "unrecognized expiry format"

/-- The `expiry` intrinsic as the evaluator runs it, starting from an unset
result expiry: a reflection error is logged as a warning and ignored, so the
evaluation always succeeds; the returned value is the resulting
`Result.Expiry`. -/
def mapToChannelsAndAccessExpiry (v : SyncValue) : Except String (Option Nat) :=
  match reflectExpiry v with
  | .ok oe => .ok oe
  | .error _ => .ok none

/-- C5: a non-negative in-range numeric expiry (100, or the numeric string
"500") sets the result expiry to that value as uint32; a parseable
post-epoch date string sets it to its UNIX epoch seconds
("2105-01-01T00:00:00.000+00:00" gives 4260211200); invalid values (-100,
123456789012345, "abc", arrays, pre-epoch dates, or no argument) leave the
expiry unset while the evaluation still succeeds without error. -/
theorem expiry_function_behaviour :
    (∀ n : Int, 0 ≤ n → n ≤ (uint32Max : Int) →
        mapToChannelsAndAccessExpiry (.num n) = .ok (some n.toNat)) ∧
    mapToChannelsAndAccessExpiry (.num 100) = .ok (some 100) ∧
    mapToChannelsAndAccessExpiry (.str "500") = .ok (some 500) ∧
    mapToChannelsAndAccessExpiry (.str "2105-01-01T00:00:00.000+00:00")
      = .ok (some 4260211200) ∧
    mapToChannelsAndAccessExpiry (.num (-100)) = .ok none ∧
    mapToChannelsAndAccessExpiry (.num 123456789012345) = .ok none ∧
    mapToChannelsAndAccessExpiry (.str "abc") = .ok none ∧
    mapToChannelsAndAccessExpiry (.arr [.str "100", .str "200"]) = .ok none ∧
    mapToChannelsAndAccessExpiry (.str "1805-01-01T00:00:00.000+00:00") = .ok none ∧
    mapToChannelsAndAccessExpiry .undef = .ok none := by
  refine ⟨?_, rfl, rfl, rfl, rfl, rfl, rfl, rfl, rfl, rfl⟩
  intro n h0 h1
  simp [mapToChannelsAndAccessExpiry, reflectExpiry, validateUint32Expiry, h0, h1]

/-- Witness for `expiry_function_behaviour`: the general numeric rule at
`n = 100`. -/
theorem expiry_function_behaviour_witness :
    mapToChannelsAndAccessExpiry (.num 100) = .ok (some 100) :=
  expiry_function_behaviour.1 100 (by norm_num) (by norm_num [uint32Max])
